import Mathlib

/-!
# MinUnit (extended): a shallow embedding of `minunit_ext.h`

The header defines three statement macros (`MU_ASSERT`, `MU_ASSERT_PRINT`,
`MU_RUN_TEST`), three print macros and two global `int` counters.  A statement
macro may execute `return` in the function it is expanded in, so a statement
is modelled as a function from the program state to a `Step`: either control
falls through to the next statement, or the enclosing function returns.

Every step carries the list of `Event`s it produced.  `Event.print` is a call
of `DEBUG_PRINT`; `Event.call` and `Event.eval` are observations (a test
function was called, a predicate was evaluated) that no definition ever reads.
-/

namespace MinUnit

/-! ## C `int` -/

/-- Smallest value of a 32-bit `int`. -/
def INT_MIN : Int := -2147483648

/-- Largest value of a 32-bit `int`. -/
def INT_MAX : Int := 2147483647

/-- A value of C type `int` (32 bits, as on ILP32 and LP64 targets). -/
structure CInt where
  val : Int
  lo : INT_MIN ≤ val
  hi : val ≤ INT_MAX

instance : DecidableEq CInt := fun a b =>
  if h : a.val = b.val then
    isTrue (by cases a; cases b; simp only [CInt.mk.injEq]; exact h)
  else
    isFalse (fun e => h (by rw [e]))

/-- Reduce an integer to the `int` congruent to it modulo 2^32. -/
def wrapInt (x : Int) : CInt :=
  ⟨(x - INT_MIN) % 4294967296 + INT_MIN,
   by unfold INT_MIN; omega,
   by unfold INT_MIN INT_MAX; omega⟩

/-- The constant `0`. -/
def CInt.zero : CInt := ⟨0, by decide, by decide⟩

/-- Value stored by `x++`.  Signed overflow is undefined in ISO C; the
two's-complement wrap-around of the usual targets is taken here. -/
def CInt.succ (x : CInt) : CInt := wrapInt (x.val + 1)

/-! ## Return type, program state, events -/

/-- Return type `#define MU_RET char*`: `none` is the null pointer, `some s` points to the
text `s` (which may be empty). -/
abbrev MU_RET := Option String

/-- Default return value `#define MU_NULL NULL`. -/
def MU_NULL : MU_RET := none

/-- First argument of `DEBUG_PRINT`. -/
inductive DebugLevel where
  | DEBUG_LEVEL_ERROR
  | DEBUG_LEVEL_INFO
  | DEBUG_LEVEL_VERBOSE
deriving DecidableEq, Repr

/-- Program memory: the two counters declared by the header and the rest of
the program's memory, `mem`. -/
structure State (σ : Type) where
  mu_tests_run : CInt
  mu_tests : CInt
  mem : σ

/-- One line handed to the print sink. -/
abbrev Line := DebugLevel × String

/-- What an execution leaves behind besides the state. -/
inductive Event where
  | print (level : DebugLevel) (msg : String)
  | call (name : String)
  | eval (text : String)
deriving DecidableEq, Repr

/-- Modelled from the spec: `DEBUG_PRINT(level, msg)`, which the header uses
but does not define, hands the pre-formatted line `msg` to channel `level` of
the print sink and does nothing else. -/
def DEBUG_PRINT (level : DebugLevel) (msg : String) : List Event :=
  [Event.print level msg]

/-- Macro `MU_PRINT_ERROR(msg)`; the flag says whether `MU_PRINT` is defined. -/
def MU_PRINT_ERROR (MU_PRINT : Bool) (msg : String) : List Event :=
  if MU_PRINT then DEBUG_PRINT DebugLevel.DEBUG_LEVEL_ERROR msg else []

/-- Macro `MU_PRINT_INFO(msg)`. -/
def MU_PRINT_INFO (MU_PRINT : Bool) (msg : String) : List Event :=
  if MU_PRINT then DEBUG_PRINT DebugLevel.DEBUG_LEVEL_INFO msg else []

/-- Macro `MU_PRINT_VERBOSE(msg)`. -/
def MU_PRINT_VERBOSE (MU_PRINT : Bool) (msg : String) : List Event :=
  if MU_PRINT then DEBUG_PRINT DebugLevel.DEBUG_LEVEL_VERBOSE msg else []

/-- The lines of one channel among the events, oldest first. -/
def channel (level : DebugLevel) (tr : List Event) : List String :=
  tr.filterMap fun e =>
    match e with
    | Event.print l msg => if l = level then some msg else none
    | _ => none

/-- All lines handed to the print sink, oldest first. -/
def printed (tr : List Event) : List Line :=
  tr.filterMap fun e =>
    match e with
    | Event.print l msg => some (l, msg)
    | _ => none

/-- Names of the test functions called, oldest first. -/
def called (tr : List Event) : List String :=
  tr.filterMap fun e =>
    match e with
    | Event.call name => some name
    | _ => none

/-- Texts of the predicates evaluated, oldest first. -/
def evaluated (tr : List Event) : List String :=
  tr.filterMap fun e =>
    match e with
    | Event.eval text => some text
    | _ => none

/-! ## Statements and function bodies -/

/-- Result of executing a statement or a statement list: fall through, or
`return v` from the enclosing function. -/
inductive Step (σ : Type) where
  | next (st : State σ) (tr : List Event)
  | ret (v : MU_RET) (st : State σ) (tr : List Event)

/-- A C statement inside a function that returns `MU_RET`. -/
abbrev Stmt (σ : Type) := State σ → Step σ

/-- The events of `tr` happened before those of the step. -/
def Step.after {σ : Type} (tr : List Event) : Step σ → Step σ
  | Step.next st t => Step.next st (tr ++ t)
  | Step.ret v st t => Step.ret v st (tr ++ t)

/-- State left by a step. -/
def Step.st {σ : Type} : Step σ → State σ
  | Step.next st _ => st
  | Step.ret _ st _ => st

/-- Events of a step. -/
def Step.tr {σ : Type} : Step σ → List Event
  | Step.next _ tr => tr
  | Step.ret _ _ tr => tr

/-- Whether the step left the enclosing function, and with which value. -/
def Step.returned {σ : Type} : Step σ → Option MU_RET
  | Step.next _ _ => none
  | Step.ret v _ _ => some v

/-- Sequencing: when the step returned, what follows is skipped; otherwise it
runs from the state the step left. -/
def Step.andThen {σ : Type} (st : Step σ) (rest : State σ → Step σ) : Step σ :=
  match st with
  | Step.ret v s1 t1 => Step.ret v s1 t1
  | Step.next s1 t1 => Step.after t1 (rest s1)

/-- Execute statements in order until one of them returns. -/
def runStmts {σ : Type} : List (Stmt σ) → State σ → Step σ
  | [], s => Step.next s []
  | c :: cs, s => (c s).andThen (runStmts cs)

/-- What a call of a function returned and left behind. -/
structure Outcome (σ : Type) where
  result : MU_RET
  st : State σ
  tr : List Event

/-- A function body: the statements `body`, then `return final;`. -/
def runBody {σ : Type} (body : List (Stmt σ)) (final : MU_RET) (s : State σ) : Outcome σ :=
  match runStmts body s with
  | Step.next s1 t1 => ⟨final, s1, t1⟩
  | Step.ret v s1 t1 => ⟨v, s1, t1⟩

/-- A predicate: a C expression used as a condition; evaluating it yields a
truth value and may change the program memory. -/
abbrev Pred (σ : Type) := State σ → Bool × State σ

/-- A test function `static MU_RET f()`: its result, the memory it leaves and
the lines it handed to the print sink. -/
abbrev TestCase (σ : Type) := State σ → MU_RET × State σ × List Line

/-! ## The macros of the header -/

/-- Helper `#define STRINGIFY(x) #x`; `x` is the text the preprocessor produces
for the argument, that is its spelling with the white space between tokens
reduced to single spaces. -/
def STRINGIFY (x : String) : String := x

/-- Helper `#define TOSTRING(x) STRINGIFY(x)` applied to `__LINE__`: the argument is
macro-expanded to the decimal line number first. -/
def TOSTRING (line : Nat) : String := STRINGIFY (toString line)

/-- Helper `#define AT __FILE__":"TOSTRING(__LINE__)` at a call site in `file`, line
`line`. -/
def AT (file : String) (line : Nat) : String := file ++ ":" ++ TOSTRING line

/-- The string literal built in the failure branch of both assertion macros. -/
def failureText (file : String) (line : Nat) (message test : String) : String :=
  "Assertion failed: \"" ++ message ++ "\" (" ++ STRINGIFY test ++ ")\n" ++
    "            in " ++ AT file line ++ "\n"

/-- The string literal built in the success branch of both assertion macros. -/
def okText (message test : String) : String :=
  "Assertion ok: \"" ++ message ++ "\" (" ++ STRINGIFY test ++ ")\n"

/-- Macro `MU_ASSERT(message, test)` expanded at `file:line`; `text` is the spelling
of the argument `test`. -/
def MU_ASSERT {σ : Type} (MU_PRINT : Bool) (file : String) (line : Nat)
    (message text : String) (test : Pred σ) : Stmt σ := fun s =>
  if !(test s).1 then
    Step.ret (some (failureText file line message text)) (test s).2 [Event.eval text]
  else
    Step.next (test s).2 (Event.eval text :: MU_PRINT_VERBOSE MU_PRINT (okText message text))

/-- Macro `MU_ASSERT_PRINT(message, test)` expanded at `file:line`. -/
def MU_ASSERT_PRINT {σ : Type} (MU_PRINT : Bool) (file : String) (line : Nat)
    (message text : String) (test : Pred σ) : Stmt σ := fun s =>
  if !(test s).1 then
    Step.next (test s).2
      (Event.eval text :: MU_PRINT_ERROR MU_PRINT (failureText file line message text))
  else
    Step.next (test s).2 (Event.eval text :: MU_PRINT_VERBOSE MU_PRINT (okText message text))

/-- The lines of a test function as events of its caller. -/
def linesToEvents (ls : List Line) : List Event :=
  ls.map fun l => Event.print l.1 l.2

/-- Macro `MU_RUN_TEST(test)`; `name` is the spelling of the argument `test`. -/
def MU_RUN_TEST {σ : Type} (MU_PRINT : Bool) (name : String) (test : TestCase σ) : Stmt σ :=
  fun s =>
    match (test s).1 with
    | some message =>
      Step.ret (some message) (test s).2.1 (Event.call name :: linesToEvents (test s).2.2)
    | none =>
      Step.next { (test s).2.1 with mu_tests_run := (test s).2.1.mu_tests_run.succ }
        (Event.call name :: linesToEvents (test s).2.2 ++
          MU_PRINT_INFO MU_PRINT ("Test ok: \"" ++ STRINGIFY name ++ "\"\n"))

/-! ## Functions written with the macros -/

/-- A test function whose body is `body` followed by `return final;`. -/
def testFn {σ : Type} (body : List (Stmt σ)) (final : MU_RET) : TestCase σ := fun s =>
  ((runBody body final s).result, (runBody body final s).st, printed (runBody body final s).tr)

/-- Statement `mu_tests_run = 0;` -/
def resetRun {σ : Type} : Stmt σ := fun s =>
  Step.next { s with mu_tests_run := CInt.zero } []

/-- Statement `mu_tests = n;` -/
def setTotal {σ : Type} (n : CInt) : Stmt σ := fun s =>
  Step.next { s with mu_tests := n } []

/-- A named test function, as listed in a suite. -/
abbrev Named (σ : Type) := String × TestCase σ

/-- Body of a suite written like `my_test_suite`: the two assignments, then
one `MU_RUN_TEST` per case in declared order. -/
def suiteBody {σ : Type} (MU_PRINT : Bool) (n : CInt) (cases : List (Named σ)) :
    List (Stmt σ) :=
  resetRun :: setTotal n :: cases.map fun c => MU_RUN_TEST MU_PRINT c.1 c.2

/-- A suite written like `my_test_suite`: its body, then `return MU_NULL;`. -/
def suite {σ : Type} (MU_PRINT : Bool) (n : CInt) (cases : List (Named σ)) (s : State σ) :
    Outcome σ :=
  runBody (suiteBody MU_PRINT n cases) MU_NULL s

/-! ## Vocabulary of the properties -/

/-- The test function writes neither counter. -/
def KeepsCounters {σ : Type} (c : TestCase σ) : Prop :=
  ∀ s, (c s).2.1.mu_tests_run = s.mu_tests_run ∧ (c s).2.1.mu_tests = s.mu_tests

/-- State at the first `MU_RUN_TEST` of a suite entered in `s`. -/
def entry {σ : Type} (n : CInt) (s : State σ) : State σ :=
  { s with mu_tests_run := CInt.zero, mu_tests := n }

/-- State left by a case that was called in `s` and recorded as passed. -/
def recorded {σ : Type} (c : Named σ) (s : State σ) : State σ :=
  { (c.2 s).2.1 with mu_tests_run := (c.2 s).2.1.mu_tests_run.succ }

/-- State left when the cases are called one after the other from `s` and each
is recorded as passed. -/
def afterAll {σ : Type} : List (Named σ) → State σ → State σ
  | [], s => s
  | c :: cs, s => afterAll cs (recorded c s)

/-- Every case returns `MU_NULL` when the cases are called one after the other
from `s`, each in the state left by the ones before it. -/
def allPass {σ : Type} : List (Named σ) → State σ → Bool
  | [], _ => true
  | c :: cs, s => (c.2 s).1.isNone && allPass cs (recorded c s)

/-- Events of the cases when each is called from the state left by the ones
before it and recorded as passed. -/
def passTrace {σ : Type} (MU_PRINT : Bool) : List (Named σ) → State σ → List Event
  | [], _ => []
  | c :: cs, s =>
    (Event.call c.1 :: linesToEvents (c.2 s).2.2 ++
      MU_PRINT_INFO MU_PRINT ("Test ok: \"" ++ STRINGIFY c.1 ++ "\"\n")) ++
      passTrace MU_PRINT cs (recorded c s)

/-- One use of an assertion macro: call site, arguments, and the spelling of
the predicate. -/
structure Assertion (σ : Type) where
  file : String
  line : Nat
  message : String
  text : String
  test : Pred σ

/-- The assertion written with `MU_ASSERT`. -/
def Assertion.stmt {σ : Type} (MU_PRINT : Bool) (a : Assertion σ) : Stmt σ :=
  MU_ASSERT MU_PRINT a.file a.line a.message a.text a.test

/-- The assertion written with `MU_ASSERT_PRINT`. -/
def Assertion.printStmt {σ : Type} (MU_PRINT : Bool) (a : Assertion σ) : Stmt σ :=
  MU_ASSERT_PRINT MU_PRINT a.file a.line a.message a.text a.test

/-- The diagnostic of the assertion. -/
def Assertion.diagnostic {σ : Type} (a : Assertion σ) : String :=
  failureText a.file a.line a.message a.text

/-- A check in a test function: an assertion written with `MU_ASSERT` or with
`MU_ASSERT_PRINT`. -/
inductive Check (σ : Type) where
  | abort (a : Assertion σ)
  | report (a : Assertion σ)

/-- The assertion of a check. -/
def Check.assertion {σ : Type} : Check σ → Assertion σ
  | Check.abort a => a
  | Check.report a => a

/-- The statement of a check. -/
def Check.stmt {σ : Type} (MU_PRINT : Bool) : Check σ → Stmt σ
  | Check.abort a => a.stmt MU_PRINT
  | Check.report a => a.printStmt MU_PRINT

/-- State left when the predicates of the checks are evaluated one after the
other from `s`. -/
def afterChecks {σ : Type} : List (Check σ) → State σ → State σ
  | [], s => s
  | k :: ks, s => afterChecks ks (k.assertion.test s).2

/-- No `MU_ASSERT` among the checks has a false predicate when the predicates
are evaluated one after the other from `s`. -/
def abortsHold {σ : Type} : List (Check σ) → State σ → Bool
  | [], _ => true
  | Check.abort a :: ks, s => (a.test s).1 && abortsHold ks (a.test s).2
  | Check.report a :: ks, s => abortsHold ks (a.test s).2

/-- Events of the checks when each is executed in the state left by the ones
before it. -/
def checksTrace {σ : Type} (MU_PRINT : Bool) : List (Check σ) → State σ → List Event
  | [], _ => []
  | k :: ks, s => (k.stmt MU_PRINT s).tr ++ checksTrace MU_PRINT ks (k.assertion.test s).2

/-- State left when the predicates of the assertions are evaluated one after
the other from `s`. -/
def afterHeld {σ : Type} : List (Assertion σ) → State σ → State σ
  | [], s => s
  | a :: as, s => afterHeld as (a.test s).2

/-- No predicate of the assertions is false when they are evaluated one after
the other from `s`. -/
def allHold {σ : Type} : List (Assertion σ) → State σ → Bool
  | [], _ => true
  | a :: as, s => (a.test s).1 && allHold as (a.test s).2

/-- Cut a text into its lines: a line ends at a newline character, and what
follows the last newline, if not empty, is a line too. -/
def splitLines : List Char → List (List Char)
  | [] => []
  | c :: cs =>
    if c = '\n' then [] :: splitLines cs
    else
      match splitLines cs with
      | [] => [[c]]
      | l :: ls => (c :: l) :: ls

/-- The lines of a text, without their newline characters. -/
def textLines (d : String) : List String := (splitLines d.data).map String.mk

/-- The text has no newline character. -/
def NoNewline (t : String) : Prop := '\n' ∉ t.data

instance (t : String) : Decidable (NoNewline t) := by
  unfold NoNewline
  infer_instance

/-- The text `d` has `m` as a substring. -/
def Contains (d m : String) : Prop := ∃ a b : String, d = a ++ m ++ b

/-! ## The driver of the usage example -/

/-- Value of `a - b` on `int`, with the same wrap-around as `CInt.succ`. -/
def CInt.sub (a b : CInt) : CInt := wrapInt (a.val - b.val)

/-- What `main` leaves behind: the texts it passed to `printf`, and the value
it returned. -/
structure Exit where
  stdout : List String
  status : CInt

/-- Function `main` of the usage example, with the suite of the example as
`suite`: print the diagnostic or `ALL TESTS PASSED`, print the counters, return
`mu_tests-mu_tests_run`. -/
def main {σ : Type} (MU_PRINT : Bool) (n : CInt) (cases : List (Named σ)) (s : State σ) :
    Exit :=
  ⟨[(match (suite MU_PRINT n cases s).result with
      | some result => result ++ "\n"
      | none => "ALL TESTS PASSED\n"),
    "Tests run: " ++ toString (suite MU_PRINT n cases s).st.mu_tests_run.val ++ " of " ++
      toString (suite MU_PRINT n cases s).st.mu_tests.val ++ "\n"],
   CInt.sub (suite MU_PRINT n cases s).st.mu_tests (suite MU_PRINT n cases s).st.mu_tests_run⟩

/-! ## Instrumented predicates -/

/-- The predicate `test` with an evaluation counter: it acts on the first
component of the memory as `test` does and adds one to the second. -/
def counting {σ : Type} (test : Pred σ) : Pred (σ × Nat) := fun s =>
  ((test ⟨s.mu_tests_run, s.mu_tests, s.mem.1⟩).1,
    ⟨(test ⟨s.mu_tests_run, s.mu_tests, s.mem.1⟩).2.mu_tests_run,
      (test ⟨s.mu_tests_run, s.mu_tests, s.mem.1⟩).2.mu_tests,
      ((test ⟨s.mu_tests_run, s.mu_tests, s.mem.1⟩).2.mem, s.mem.2 + 1)⟩)

/-! ## The two builds -/

/-- A test function as compiled with `MU_PRINT` defined (`true`) and not
defined (`false`). -/
abbrev Built (σ : Type) := Bool → TestCase σ

/-- The cases of a suite in one of the two builds. -/
def build {σ : Type} (MU_PRINT : Bool) (cases : List (String × Built σ)) : List (Named σ) :=
  cases.map fun c => (c.1, c.2 MU_PRINT)

/-- The two builds of the test function differ at most in what they print. -/
def SameProgram {σ : Type} (c : Built σ) : Prop :=
  ∀ s, (c true s).1 = (c false s).1 ∧ (c true s).2.1 = (c false s).2.1

/-- Built without `MU_PRINT`, the test function prints nothing. -/
def SilentWhenDisabled {σ : Type} (c : Built σ) : Prop :=
  ∀ s, (c false s).2.2 = []

/-- A test function whose body is a sequence of `MU_ASSERT` and
`MU_ASSERT_PRINT` statements followed by `return MU_NULL`, in both builds. -/
def checksFn {σ : Type} (ks : List (Check σ)) : Built σ := fun b =>
  testFn (ks.map (Check.stmt b)) MU_NULL

/-- A statement of a test function body: an assertion macro, or a statement
that is the same in both builds. -/
inductive Item (σ : Type) where
  | check (k : Check σ)
  | plain (st : Stmt σ)

/-- The statement of an item in one of the two builds. -/
def Item.stmt {σ : Type} (MU_PRINT : Bool) : Item σ → Stmt σ
  | Item.check k => k.stmt MU_PRINT
  | Item.plain st => st

/-- A statement of the item that is not an assertion macro prints nothing. -/
def Item.Quiet {σ : Type} : Item σ → Prop
  | Item.check _ => True
  | Item.plain st => ∀ s, printed (st s).tr = []

/-- A test function whose body mixes assertion macros with statements that are
the same in both builds, followed by `return final`, in both builds. -/
def mixedFn {σ : Type} (items : List (Item σ)) (final : MU_RET) : Built σ := fun b =>
  testFn (items.map (Item.stmt b)) final

/-! ## Lines of the runner, states of a run -/

/-- The line `MU_RUN_TEST` passes to `MU_PRINT_INFO` for the case `name`. -/
def okLine (name : String) : String := "Test ok: \"" ++ STRINGIFY name ++ "\"\n"

/-- The info lines among the lines a test function printed. -/
def infoOf (ls : List Line) : List String :=
  ls.filterMap fun l => if l.1 = DebugLevel.DEBUG_LEVEL_INFO then some l.2 else none

/-- What reaches the info channel while the cases are called one after the
other from `s` and each is recorded as passed, every line with its writer:
`false` for a line the case printed itself, `true` for the line `MU_RUN_TEST`
prints once the case has returned `MU_NULL`. -/
def infoScript {σ : Type} : List (Named σ) → State σ → List (Bool × String)
  | [], _ => []
  | c :: cs, s =>
    (infoOf (c.2 s).2.2).map (fun l => (false, l)) ++
      (true, okLine c.1) :: infoScript cs (recorded c s)

/-- The lines of a script that the runner wrote. -/
def runnerLines (script : List (Bool × String)) : List String :=
  (script.filter fun p => p.1).map Prod.snd

/-- Case `k` (counted from 1) is the first to fail when the suite runs from
`s`, and it fails with the diagnostic `d`. -/
def FirstFailure {σ : Type} (cases : List (Named σ)) (s : State σ) (k : Nat) (ck : Named σ)
    (d : String) : Prop :=
  1 ≤ k ∧ cases[k - 1]? = some ck ∧ allPass (cases.take (k - 1)) s = true ∧
    (ck.2 (afterAll (cases.take (k - 1)) s)).1 = some d

/-- The test function prints nothing on the info channel. -/
def NoInfoLines {σ : Type} (c : TestCase σ) : Prop :=
  ∀ s, ∀ l ∈ (c s).2.2, l.1 ≠ DebugLevel.DEBUG_LEVEL_INFO

/-- The states a function body passes through, each with the number of
statements that have fallen through before it: the state at entry, the state
after every statement that falls through, and the state in which a statement
returns. -/
def snapshots {σ : Type} : List (Stmt σ) → Nat → State σ → List (Nat × State σ)
  | [], j, s => [(j, s)]
  | c :: cs, j, s =>
    (j, s) ::
      match c s with
      | Step.ret _ s1 _ => [(j, s1)]
      | Step.next s1 _ => snapshots cs (j + 1) s1

/-- The states a sequence of `MU_RUN_TEST` statements passes through from `s`,
each with the number of test functions that have returned `MU_NULL` so far (`j`
before the first) and with `true` when the last of them is not recorded yet:
the state before each `test()`; the state in which `test()` returned, from
which a diagnostic is returned at once and in which, after `MU_NULL`, the
statement `mu_tests_run++` is still to come; the state after `mu_tests_run++`. -/
def fineSnapshots {σ : Type} : List (Named σ) → Nat → State σ → List (Nat × Bool × State σ)
  | [], j, s => [(j, false, s)]
  | c :: cs, j, s =>
    (j, false, s) ::
      match (c.2 s).1 with
      | some _ => [(j, false, (c.2 s).2.1)]
      | none => (j + 1, true, (c.2 s).2.1) :: fineSnapshots cs (j + 1) (recorded c s)

/-! ## Test doubles

Cases that leave a mark in `mem` each time their body runs. -/

/-- The `int` 3. -/
def three : CInt := ⟨3, by decide, by decide⟩

/-- The largest `int`. -/
def intMax : CInt := ⟨INT_MAX, by decide, by decide⟩

/-- A state whose `run` counter holds the largest `int`. -/
def saturated : State (List String) := ⟨intMax, three, []⟩

/-- Statement that appends `name` to the memory. -/
def tick (name : String) : Stmt (List String) := fun s =>
  Step.next { s with mem := s.mem ++ [name] } []

/-- Predicate with the constant value `b` and no effect. -/
def constPred {σ : Type} (b : Bool) : Pred σ := fun s => (b, s)

/-- Case `caseA` of the scenario: `assert("x", 1==1)`. -/
def caseA : TestCase (List String) :=
  testFn [tick "caseA", MU_ASSERT true "suite.c" 10 "x" "1==1" (constPred true)] MU_NULL

/-- Case `caseB` of the scenario: `assert("y", 1==2)`. -/
def caseB : TestCase (List String) :=
  testFn [tick "caseB", MU_ASSERT true "suite.c" 15 "y" "1==2" (constPred false)] MU_NULL

/-- Case `caseC` of the scenario: no assertion. -/
def caseC : TestCase (List String) :=
  testFn [tick "caseC"] MU_NULL

/-- Predicate that appends its own text to the memory and has the value `b`. -/
def notingPred (text : String) (b : Bool) : Pred (List String) := fun s =>
  (b, { s with mem := s.mem ++ [text] })

/-- Assertion at `suite.c:line` whose predicate leaves a mark when evaluated. -/
def noting (line : Nat) (message text : String) (b : Bool) : Assertion (List String) :=
  ⟨"suite.c", line, message, text, notingPred text b⟩

/-- Body of a case that leaves a mark, passes an `MU_ASSERT` and has a failing
`MU_ASSERT_PRINT`. -/
def firstBody : List (Item (List String)) :=
  [Item.plain (tick "first"), Item.check (Check.abort (noting 3 "a" "p1" true)),
    Item.check (Check.report (noting 4 "b" "p2" false))]

/-- Body of a case that leaves a mark and fails an `MU_ASSERT`. -/
def secondBody : List (Item (List String)) :=
  [Item.plain (tick "second"), Item.check (Check.abort (noting 5 "c" "p3" false))]

/-- Two cases, in both builds: the first passes, the second fails. -/
def builtCases : List (String × Built (List String)) :=
  [("first", mixedFn firstBody MU_NULL), ("second", mixedFn secondBody MU_NULL)]

/-- A test function that tests the build flag itself: `return MU_NULL` under
`#ifdef MU_PRINT`, a diagnostic under `#else`. -/
def flagCase : Built (List String) := fun b s =>
  (if b then MU_NULL else some "built without MU_PRINT", s, [])

/-- A test function that calls `DEBUG_PRINT(DEBUG_LEVEL_INFO, "hello")` itself
and returns `MU_NULL`. -/
def chatty : TestCase (List String) := fun s =>
  (MU_NULL, s, [(DebugLevel.DEBUG_LEVEL_INFO, "hello")])

/-- Statement `mu_tests_run = n;` -/
def setRun {σ : Type} (n : CInt) : Stmt σ := fun s =>
  Step.next { s with mu_tests_run := n } []

/-- The `int` 100. -/
def hundred : CInt := ⟨100, by decide, by decide⟩

/-- A test function that writes the counter: `mu_tests_run = 100;` and
`return MU_NULL;`. -/
def bump : TestCase (List String) := testFn [setRun hundred] MU_NULL

/-- A suite whose first case prints an info line itself and passes, and whose
second case fails. -/
def talkative : List (Named (List String)) :=
  [("chatty", chatty), ("caseB", caseB), ("caseC", caseC)]

/-- A state a suite may be entered in, with a negative `total` left over. -/
def negStale : State (List String) := ⟨wrapInt 7, wrapInt (-5), []⟩

/-- The `int` 1. -/
def one : CInt := ⟨1, by decide, by decide⟩

/-- The suite of the scenario. -/
def scenario : List (Named (List String)) :=
  [("caseA", caseA), ("caseB", caseB), ("caseC", caseC)]

/-- The `int` 2. -/
def two : CInt := ⟨2, by decide, by decide⟩

/-- A suite of two passing cases. -/
def passing : List (Named (List String)) :=
  [("caseA", caseA), ("caseC", caseC)]

/-- Some state a suite may be entered in: counters left over, empty memory. -/
def stale : State (List String) := ⟨wrapInt 7, wrapInt 9, []⟩

/-! ## Basic facts -/

theorem CInt.ext_val {a b : CInt} (h : a.val = b.val) : a = b := by
  cases a; cases b; simp only [CInt.mk.injEq]; exact h

theorem CInt.succ_val {x : CInt} (h : x.val < INT_MAX) : x.succ.val = x.val + 1 := by
  have hlo := x.lo
  unfold INT_MIN at hlo
  unfold INT_MAX at h
  show (x.val + 1 - INT_MIN) % 4294967296 + INT_MIN = x.val + 1
  unfold INT_MIN
  omega

theorem CInt.succ_val_max {x : CInt} (h : x.val = INT_MAX) : x.succ.val = INT_MIN := by
  unfold INT_MAX at h
  show (x.val + 1 - INT_MIN) % 4294967296 + INT_MIN = INT_MIN
  unfold INT_MIN
  omega

theorem after_nil {σ : Type} (st : Step σ) : Step.after [] st = st := by
  cases st <;> rfl

theorem after_after {σ : Type} (a b : List Event) (st : Step σ) :
    Step.after a (Step.after b st) = Step.after (a ++ b) st := by
  cases st <;> simp [Step.after]

theorem andThen_assoc {σ : Type} (st : Step σ) (f g : State σ → Step σ) :
    (st.andThen f).andThen g = st.andThen fun s => (f s).andThen g := by
  cases st with
  | ret v s1 t1 => rfl
  | next s1 t1 =>
    show (Step.after t1 (f s1)).andThen g = Step.after t1 ((f s1).andThen g)
    cases f s1 with
    | ret v s2 t2 => rfl
    | next s2 t2 =>
      show Step.after (t1 ++ t2) (g s2) = Step.after t1 (Step.after t2 (g s2))
      rw [after_after]

theorem runStmts_append {σ : Type} (xs ys : List (Stmt σ)) (s : State σ) :
    runStmts (xs ++ ys) s = (runStmts xs s).andThen (runStmts ys) := by
  induction xs generalizing s with
  | nil =>
    show runStmts ys s = Step.after [] (runStmts ys s)
    rw [after_nil]
  | cons c cs ih =>
    show (c s).andThen (runStmts (cs ++ ys)) = ((c s).andThen (runStmts cs)).andThen (runStmts ys)
    rw [andThen_assoc]
    congr 1
    funext s1
    exact ih s1

theorem called_append (a b : List Event) : called (a ++ b) = called a ++ called b := by
  simp [called, List.filterMap_append]

theorem called_linesToEvents (ls : List Line) : called (linesToEvents ls) = [] := by
  induction ls with
  | nil => rfl
  | cons l ls ih => simp [called, linesToEvents]

theorem called_MU_PRINT_INFO (b : Bool) (msg : String) : called (MU_PRINT_INFO b msg) = [] := by
  cases b <;> rfl

theorem called_passTrace {σ : Type} (b : Bool) (cs : List (Named σ)) (s : State σ) :
    called (passTrace b cs s) = cs.map Prod.fst := by
  induction cs generalizing s with
  | nil => rfl
  | cons c cs ih =>
    simp only [passTrace, called_append, ih, List.map_cons]
    simp [called, called_linesToEvents, called_MU_PRINT_INFO]
    have h1 := called_linesToEvents (c.2 s).2.2
    have h2 := called_MU_PRINT_INFO b ("Test ok: \"" ++ STRINGIFY c.1 ++ "\"\n")
    simp only [called] at h1 h2
    simp [h1, h2]

theorem runTests_allPass {σ : Type} (b : Bool) (cs : List (Named σ)) (s : State σ)
    (h : allPass cs s = true) :
    runStmts (cs.map fun c => MU_RUN_TEST b c.1 c.2) s =
      Step.next (afterAll cs s) (passTrace b cs s) := by
  induction cs generalizing s with
  | nil => rfl
  | cons c cs ih =>
    simp only [allPass, Bool.and_eq_true, Option.isNone_iff_eq_none] at h
    have hrest := ih (recorded c s) h.2
    simp only [List.map_cons, runStmts, MU_RUN_TEST, h.1, Step.andThen]
    show Step.after _ (runStmts _ (recorded c s)) = _
    rw [hrest]
    rfl

theorem afterAll_counters {σ : Type} (cs : List (Named σ)) (s : State σ)
    (hk : ∀ c ∈ cs, KeepsCounters c.2) :
    (afterAll cs s).mu_tests = s.mu_tests ∧
      (s.mu_tests_run.val + cs.length ≤ INT_MAX →
        (afterAll cs s).mu_tests_run.val = s.mu_tests_run.val + cs.length) := by
  induction cs generalizing s with
  | nil => simp [afterAll]
  | cons c cs ih =>
    have hc := hk c (List.mem_cons_self _ _) s
    have ih2 := ih (recorded c s) (fun x hx => hk x (List.mem_cons_of_mem _ hx))
    have hrun : s.mu_tests_run.val + (cs.length + 1) ≤ INT_MAX →
        (recorded c s).mu_tests_run.val = s.mu_tests_run.val + 1 := by
      intro hle
      show ((c.2 s).2.1.mu_tests_run.succ).val = _
      rw [CInt.succ_val (by rw [hc.1]; omega), hc.1]
    refine ⟨?_, ?_⟩
    · show (afterAll cs (recorded c s)).mu_tests = _
      rw [ih2.1]
      exact hc.2
    · intro hle
      simp only [List.length_cons, Nat.cast_add, Nat.cast_one] at hle
      show (afterAll cs (recorded c s)).mu_tests_run.val = _
      rw [ih2.2 (by rw [hrun hle]; omega), hrun hle]
      simp only [List.length_cons, Nat.cast_add, Nat.cast_one]
      omega

theorem suite_eq {σ : Type} (b : Bool) (n : CInt) (cs : List (Named σ)) (s : State σ) :
    suite b n cs s =
      match runStmts (cs.map fun c => MU_RUN_TEST b c.1 c.2) (entry n s) with
      | Step.next s1 t1 => ⟨MU_NULL, s1, t1⟩
      | Step.ret v s1 t1 => ⟨v, s1, t1⟩ := by
  have h : runStmts (suiteBody b n cs) s =
      runStmts (cs.map fun c => MU_RUN_TEST b c.1 c.2) (entry n s) := by
    show Step.after [] (Step.after [] (runStmts _ (entry n s))) = _
    rw [after_nil, after_nil]
  unfold suite runBody
  rw [h]

theorem runTests_firstFail {σ : Type} (b : Bool) (pre post : List (Named σ)) (ck : Named σ)
    (d : String) (s : State σ) (hpass : allPass pre s = true)
    (hfail : (ck.2 (afterAll pre s)).1 = some d) :
    runStmts ((pre ++ ck :: post).map fun c => MU_RUN_TEST b c.1 c.2) s =
      Step.ret (some d) (ck.2 (afterAll pre s)).2.1
        (passTrace b pre s ++
          (Event.call ck.1 :: linesToEvents (ck.2 (afterAll pre s)).2.2)) := by
  rw [List.map_append, runStmts_append, runTests_allPass b pre s hpass]
  simp only [List.map_cons, runStmts, Step.andThen, MU_RUN_TEST, hfail]
  rfl

theorem split_at {α : Type} (l : List α) (i : Nat) (x : α) (h : l[i]? = some x) :
    l = l.take i ++ x :: l.drop (i + 1) ∧ l.take (i + 1) = l.take i ++ [x] := by
  induction l generalizing i with
  | nil => simp at h
  | cons a l ih =>
    cases i with
    | zero =>
      simp only [List.getElem?_cons_zero, Option.some.injEq] at h
      simp [h]
    | succ j =>
      simp only [List.getElem?_cons_succ] at h
      have := ih j h
      simp only [List.take_succ_cons, List.drop_succ_cons, List.cons_append, List.cons.injEq,
        true_and]
      exact ⟨this.1, this.2⟩

theorem entry_run {σ : Type} (n : CInt) (s : State σ) : (entry n s).mu_tests_run.val = 0 := rfl

theorem entry_total {σ : Type} (n : CInt) (s : State σ) : (entry n s).mu_tests = n := rfl

theorem scenario_keeps : ∀ c ∈ scenario, KeepsCounters c.2 := by
  intro c hc
  simp only [scenario, List.mem_cons, List.mem_singleton, List.not_mem_nil, or_false] at hc
  rcases hc with rfl | rfl | rfl <;> exact fun s => ⟨rfl, rfl⟩

theorem passing_keeps : ∀ c ∈ passing, KeepsCounters c.2 := by
  intro c hc
  simp only [passing, List.mem_cons, List.mem_singleton, List.not_mem_nil, or_false] at hc
  rcases hc with rfl | rfl <;> exact fun s => ⟨rfl, rfl⟩

theorem evaluated_append (a b : List Event) :
    evaluated (a ++ b) = evaluated a ++ evaluated b := by
  simp [evaluated, List.filterMap_append]

theorem evaluated_verbose (b : Bool) (msg : String) :
    evaluated (MU_PRINT_VERBOSE b msg) = [] := by
  cases b <;> rfl

theorem evaluated_error (b : Bool) (msg : String) :
    evaluated (MU_PRINT_ERROR b msg) = [] := by
  cases b <;> rfl

theorem evaluated_cons_eval (t : String) (tr : List Event) :
    evaluated (Event.eval t :: tr) = t :: evaluated tr := rfl

theorem check_step {σ : Type} (b : Bool) (k : Check σ) (s : State σ)
    (h : abortsHold [k] s = true) :
    k.stmt b s = Step.next (k.assertion.test s).2 (k.stmt b s).tr ∧
      evaluated (k.stmt b s).tr = [k.assertion.text] := by
  cases k with
  | abort a =>
    simp only [abortsHold, Bool.and_true] at h
    simp [Check.stmt, Assertion.stmt, MU_ASSERT, h, Step.tr, Check.assertion,
      evaluated_cons_eval, evaluated_verbose]
  | report a =>
    cases ht : (a.test s).1 <;>
      simp [Check.stmt, Assertion.printStmt, MU_ASSERT_PRINT, ht, Step.tr, Check.assertion,
        evaluated_cons_eval, evaluated_verbose, evaluated_error]

theorem abortsHold_cons {σ : Type} (k : Check σ) (ks : List (Check σ)) (s : State σ) :
    abortsHold (k :: ks) s = (abortsHold [k] s && abortsHold ks (k.assertion.test s).2) := by
  cases k <;> simp [abortsHold, Check.assertion]

theorem abortsHold_append {σ : Type} (xs ys : List (Check σ)) (s : State σ) :
    abortsHold (xs ++ ys) s = (abortsHold xs s && abortsHold ys (afterChecks xs s)) := by
  induction xs generalizing s with
  | nil => simp [abortsHold, afterChecks]
  | cons k ks ih =>
    rw [List.cons_append, abortsHold_cons, ih, abortsHold_cons k ks, Bool.and_assoc]
    rfl

theorem afterChecks_append {σ : Type} (xs ys : List (Check σ)) (s : State σ) :
    afterChecks (xs ++ ys) s = afterChecks ys (afterChecks xs s) := by
  induction xs generalizing s with
  | nil => rfl
  | cons k ks ih => exact ih _

theorem runChecks_hold {σ : Type} (b : Bool) (ks : List (Check σ)) (s : State σ)
    (h : abortsHold ks s = true) :
    runStmts (ks.map (Check.stmt b)) s = Step.next (afterChecks ks s) (checksTrace b ks s) := by
  induction ks generalizing s with
  | nil => rfl
  | cons k ks ih =>
    rw [abortsHold_cons, Bool.and_eq_true] at h
    have hk := (check_step b k s h.1).1
    have hrest := ih (k.assertion.test s).2 h.2
    show (k.stmt b s).andThen (runStmts (ks.map (Check.stmt b))) = _
    rw [hk]
    show Step.after _ (runStmts (ks.map (Check.stmt b)) (k.assertion.test s).2) = _
    rw [hrest]
    rfl

theorem evaluated_checksTrace {σ : Type} (b : Bool) (ks : List (Check σ)) (s : State σ)
    (h : abortsHold ks s = true) :
    evaluated (checksTrace b ks s) = ks.map fun k => k.assertion.text := by
  induction ks generalizing s with
  | nil => rfl
  | cons k ks ih =>
    rw [abortsHold_cons, Bool.and_eq_true] at h
    show evaluated ((k.stmt b s).tr ++ checksTrace b ks (k.assertion.test s).2) = _
    rw [evaluated_append, (check_step b k s h.1).2, ih _ h.2]
    rfl

theorem allHold_eq {σ : Type} (as : List (Assertion σ)) (s : State σ) :
    abortsHold (as.map Check.abort) s = allHold as s ∧
      afterChecks (as.map Check.abort) s = afterHeld as s := by
  induction as generalizing s with
  | nil => exact ⟨rfl, rfl⟩
  | cons a as ih =>
    refine ⟨?_, ?_⟩
    · show ((a.test s).1 && abortsHold (as.map Check.abort) (a.test s).2) = _
      rw [(ih _).1]
      rfl
    · exact (ih _).2

theorem first_failure {σ : Type} (as : List (Assertion σ)) (s : State σ)
    (h : allHold as s = false) :
    ∃ pre a post, as = pre ++ a :: post ∧ allHold pre s = true ∧
      (a.test (afterHeld pre s)).1 = false := by
  induction as generalizing s with
  | nil => simp [allHold] at h
  | cons a as ih =>
    cases ha : (a.test s).1 with
    | false => exact ⟨[], a, as, rfl, rfl, ha⟩
    | true =>
      have hrest : allHold as (a.test s).2 = false := by
        simpa [allHold, ha] using h
      obtain ⟨pre, x, post, he, hp, hf⟩ := ih _ hrest
      refine ⟨a :: pre, x, post, by rw [he]; rfl, ?_, hf⟩
      show ((a.test s).1 && allHold pre (a.test s).2) = true
      rw [ha, hp]
      rfl

theorem CInt.sub_val {a b : CInt} (h0 : 0 ≤ b.val) (h1 : b.val ≤ a.val) :
    (CInt.sub a b).val = a.val - b.val := by
  have ha := a.hi
  unfold INT_MAX at ha
  show (a.val - b.val - INT_MIN) % 4294967296 + INT_MIN = a.val - b.val
  unfold INT_MIN
  omega

theorem first_failing_case {σ : Type} (cs : List (Named σ)) (s : State σ)
    (h : allPass cs s = false) :
    ∃ pre ck post d, cs = pre ++ ck :: post ∧ allPass pre s = true ∧
      (ck.2 (afterAll pre s)).1 = some d := by
  induction cs generalizing s with
  | nil => simp [allPass] at h
  | cons c cs ih =>
    cases hc : (c.2 s).1 with
    | some d => exact ⟨[], c, cs, d, rfl, rfl, hc⟩
    | none =>
      have hrest : allPass cs (recorded c s) = false := by
        simpa [allPass, hc] using h
      obtain ⟨pre, x, post, d, he, hp, hf⟩ := ih _ hrest
      refine ⟨c :: pre, x, post, d, by rw [he]; rfl, ?_, hf⟩
      show ((c.2 s).1.isNone && allPass pre (recorded c s)) = true
      rw [hc, hp]
      rfl

theorem suite_allPass {σ : Type} (b : Bool) (N : CInt) (cs : List (Named σ)) (s : State σ)
    (hN : N.val = cs.length) (hkeep : ∀ c ∈ cs, KeepsCounters c.2)
    (hpass : allPass cs (entry N s) = true) :
    suite b N cs s = ⟨MU_NULL, afterAll cs (entry N s), passTrace b cs (entry N s)⟩ ∧
      (afterAll cs (entry N s)).mu_tests_run.val = N.val ∧
      (afterAll cs (entry N s)).mu_tests = N := by
  have hcnt := afterAll_counters cs (entry N s) hkeep
  have hNmax := N.hi
  refine ⟨by rw [suite_eq, runTests_allPass b cs (entry N s) hpass], ?_, ?_⟩
  · rw [hcnt.2 (by rw [entry_run]; omega), entry_run]
    omega
  · rw [hcnt.1, entry_total]

theorem suite_failAt {σ : Type} (b : Bool) (N : CInt) (pre post : List (Named σ))
    (ck : Named σ) (d : String) (s : State σ)
    (hN : N.val = (pre ++ ck :: post).length)
    (hkeep : ∀ c ∈ pre ++ ck :: post, KeepsCounters c.2)
    (hpass : allPass pre (entry N s) = true)
    (hfail : (ck.2 (afterAll pre (entry N s))).1 = some d) :
    suite b N (pre ++ ck :: post) s =
        ⟨some d, (ck.2 (afterAll pre (entry N s))).2.1,
          passTrace b pre (entry N s) ++
            (Event.call ck.1 :: linesToEvents (ck.2 (afterAll pre (entry N s))).2.2)⟩ ∧
      (ck.2 (afterAll pre (entry N s))).2.1.mu_tests_run.val = pre.length ∧
      (ck.2 (afterAll pre (entry N s))).2.1.mu_tests = N := by
  have hkeepPre : ∀ c ∈ pre, KeepsCounters c.2 :=
    fun c hc => hkeep c (List.mem_append_left _ hc)
  have hcnt := afterAll_counters pre (entry N s) hkeepPre
  have hck := hkeep ck (List.mem_append_right _ (List.mem_cons_self _ _))
    (afterAll pre (entry N s))
  have hNmax := N.hi
  simp only [List.length_append, List.length_cons, Nat.cast_add, Nat.cast_one] at hN
  refine ⟨by rw [suite_eq, runTests_firstFail b pre post ck d (entry N s) hpass hfail], ?_, ?_⟩
  · rw [hck.1, hcnt.2 (by rw [entry_run]; omega), entry_run]
    omega
  · rw [hck.2, hcnt.1, entry_total]

/-! ## The claims -/

/-- C1: a suite that resets `run`, sets `total` to the `int` N and runs N cases
that do not write the counters, where cases 1..k-1 return `MU_NULL` and case k returns
the diagnostic `d`, returns exactly `d`, with `run = k-1` and `total = N`; the
functions called are cases 1..k in declared order and no other, the state is
the one case k left, and the cases after k have no influence on the outcome. -/
theorem C1_suite_stops_at_first_failure {σ : Type} (MU_PRINT : Bool) (N : CInt)
    (cases : List (Named σ)) (k : Nat) (ck : Named σ) (d : String) (s : State σ)
    (hN : N.val = cases.length) (hk : 1 ≤ k) (hck : cases[k - 1]? = some ck)
    (hkeep : ∀ c ∈ cases, KeepsCounters c.2)
    (hpass : allPass (cases.take (k - 1)) (entry N s) = true)
    (hfail : (ck.2 (afterAll (cases.take (k - 1)) (entry N s))).1 = some d) :
    (suite MU_PRINT N cases s).result = some d ∧
      (suite MU_PRINT N cases s).st.mu_tests_run.val = ((k - 1 : Nat) : Int) ∧
      (suite MU_PRINT N cases s).st.mu_tests = N ∧
      called (suite MU_PRINT N cases s).tr = (cases.take k).map Prod.fst ∧
      (suite MU_PRINT N cases s).st = (ck.2 (afterAll (cases.take (k - 1)) (entry N s))).2.1 ∧
      ∀ others : List (Named σ),
        suite MU_PRINT N (cases.take k ++ others) s = suite MU_PRINT N cases s := by
  obtain ⟨hsplit, htake⟩ := split_at cases (k - 1) ck hck
  have hk1 : k - 1 + 1 = k := by omega
  rw [hk1] at hsplit htake
  have hlt : k - 1 < cases.length := by
    by_contra hge
    rw [List.getElem?_eq_none (by omega)] at hck
    exact Option.noConfusion hck
  have hrun := fun post => runTests_firstFail MU_PRINT (cases.take (k - 1)) post ck d
    (entry N s) hpass hfail
  have hout : ∀ post, suite MU_PRINT N (cases.take (k - 1) ++ ck :: post) s =
      ⟨some d, (ck.2 (afterAll (cases.take (k - 1)) (entry N s))).2.1,
        passTrace MU_PRINT (cases.take (k - 1)) (entry N s) ++
          (Event.call ck.1 ::
            linesToEvents (ck.2 (afterAll (cases.take (k - 1)) (entry N s))).2.2)⟩ := by
    intro post
    rw [suite_eq, hrun post]
  have hmain := hout (cases.drop k)
  rw [← hsplit] at hmain
  have hkeepPre : ∀ c ∈ cases.take (k - 1), KeepsCounters c.2 :=
    fun c hc => hkeep c (List.mem_of_mem_take hc)
  have hcnt := afterAll_counters (cases.take (k - 1)) (entry N s) hkeepPre
  have hlen : (cases.take (k - 1)).length = k - 1 := by
    rw [List.length_take]; omega
  have hNmax := N.hi
  have hckKeep := hkeep ck (List.getElem?_mem hck) (afterAll (cases.take (k - 1)) (entry N s))
  refine ⟨by rw [hmain], ?_, ?_, ?_, by rw [hmain], ?_⟩
  · rw [hmain]
    show (ck.2 (afterAll (cases.take (k - 1)) (entry N s))).2.1.mu_tests_run.val = _
    rw [hckKeep.1, hcnt.2 (by rw [entry_run, hlen]; omega), entry_run, hlen]
    omega
  · rw [hmain]
    show (ck.2 (afterAll (cases.take (k - 1)) (entry N s))).2.1.mu_tests = _
    rw [hckKeep.2, hcnt.1, entry_total]
  · rw [hmain]
    show called (_ ++ (Event.call ck.1 :: linesToEvents _)) = _
    rw [called_append, called_passTrace, htake, List.map_append]
    have hl := called_linesToEvents (ck.2 (afterAll (cases.take (k - 1)) (entry N s))).2.2
    simp only [called] at hl
    simp [called, hl]
  · intro others
    rw [hmain, htake, List.append_assoc]
    exact hout others

/-- Witness of C1: the scenario [caseA passes, caseB fails on
`MU_ASSERT("y", 1==2)`, caseC passes] returns the diagnostic of caseB with
`run = 1` and `total = 3`; caseC is not called and leaves no mark. -/
theorem C1_suite_stops_at_first_failure_witness :
    (suite true three scenario stale).result =
        some "Assertion failed: \"y\" (1==2)\n            in suite.c:15\n" ∧
      (suite true three scenario stale).st.mu_tests_run.val = 1 ∧
      (suite true three scenario stale).st.mu_tests.val = 3 ∧
      called (suite true three scenario stale).tr = ["caseA", "caseB"] ∧
      (suite true three scenario stale).st.mem = ["caseA", "caseB"] :=
  have h := C1_suite_stops_at_first_failure true three scenario 2 ("caseB", caseB)
    "Assertion failed: \"y\" (1==2)\n            in suite.c:15\n" stale
    rfl (by decide) rfl scenario_keeps (by decide) (by decide)
  ⟨h.1, h.2.1, congrArg CInt.val h.2.2.1, h.2.2.2.1, congrArg State.mem h.2.2.2.2.1⟩

/-- C2: a suite that resets `run`, sets `total` to the `int` N and runs N cases
that do not write the counters and all return `MU_NULL` returns `MU_NULL` with
`run = total = N`; the functions called are exactly the N cases, once each, in
declared order, and the state is the one the last case left, recorded. -/
theorem C2_suite_all_pass {σ : Type} (MU_PRINT : Bool) (N : CInt)
    (cases : List (Named σ)) (s : State σ)
    (hN : N.val = cases.length)
    (hkeep : ∀ c ∈ cases, KeepsCounters c.2)
    (hpass : allPass cases (entry N s) = true) :
    (suite MU_PRINT N cases s).result = MU_NULL ∧
      (suite MU_PRINT N cases s).st.mu_tests_run = N ∧
      (suite MU_PRINT N cases s).st.mu_tests = N ∧
      called (suite MU_PRINT N cases s).tr = cases.map Prod.fst ∧
      (suite MU_PRINT N cases s).st = afterAll cases (entry N s) := by
  have hmain : suite MU_PRINT N cases s =
      ⟨MU_NULL, afterAll cases (entry N s), passTrace MU_PRINT cases (entry N s)⟩ := by
    rw [suite_eq, runTests_allPass MU_PRINT cases (entry N s) hpass]
  have hcnt := afterAll_counters cases (entry N s) hkeep
  have hNmax := N.hi
  refine ⟨by rw [hmain], ?_, ?_, ?_, by rw [hmain]⟩
  · rw [hmain]
    apply CInt.ext_val
    show (afterAll cases (entry N s)).mu_tests_run.val = _
    rw [hcnt.2 (by rw [entry_run]; omega), entry_run]
    omega
  · rw [hmain]
    show (afterAll cases (entry N s)).mu_tests = _
    rw [hcnt.1, entry_total]
  · rw [hmain]
    exact called_passTrace MU_PRINT cases (entry N s)

/-- Witness of C2: the suite [caseA, caseC] returns `MU_NULL` with
`run = total = 2`, both cases called once, in order. -/
theorem C2_suite_all_pass_witness :
    (suite true two passing stale).result = MU_NULL ∧
      (suite true two passing stale).st.mu_tests_run.val = 2 ∧
      (suite true two passing stale).st.mu_tests.val = 2 ∧
      called (suite true two passing stale).tr = ["caseA", "caseC"] ∧
      (suite true two passing stale).st.mem = ["caseA", "caseC"] :=
  have h := C2_suite_all_pass true two passing stale rfl passing_keeps (by decide)
  ⟨h.1, congrArg CInt.val h.2.1, congrArg CInt.val h.2.2.1, h.2.2.2.1,
    congrArg State.mem h.2.2.2.2⟩

/-- C3: when control reaches `MU_ASSERT(message, test)` and the predicate
evaluates false, the enclosing function returns at once with the diagnostic:
whatever statements follow and whatever the function would return at its end,
the outcome is the diagnostic, the state the predicate left and the events up
to the evaluation; the diagnostic contains the message and the text of the
predicate as substrings. -/
theorem C3_assert_false_returns_diagnostic {σ : Type} (MU_PRINT : Bool) (file : String)
    (line : Nat) (message text : String) (test : Pred σ) (pre post : List (Stmt σ))
    (final : MU_RET) (s s1 : State σ) (t1 : List Event)
    (hreach : runStmts pre s = Step.next s1 t1)
    (hfalse : (test s1).1 = false) :
    MU_ASSERT MU_PRINT file line message text test s1 =
        Step.ret (some (failureText file line message text)) (test s1).2 [Event.eval text] ∧
      runBody (pre ++ MU_ASSERT MU_PRINT file line message text test :: post) final s =
        ⟨some (failureText file line message text), (test s1).2, t1 ++ [Event.eval text]⟩ ∧
      (testFn (pre ++ MU_ASSERT MU_PRINT file line message text test :: post) final s).1 =
        some (failureText file line message text) ∧
      Contains (failureText file line message text) message ∧
      Contains (failureText file line message text) text := by
  have hstep : MU_ASSERT MU_PRINT file line message text test s1 =
      Step.ret (some (failureText file line message text)) (test s1).2 [Event.eval text] := by
    simp [MU_ASSERT, hfalse]
  have hbody : runBody (pre ++ MU_ASSERT MU_PRINT file line message text test :: post) final s =
      ⟨some (failureText file line message text), (test s1).2, t1 ++ [Event.eval text]⟩ := by
    unfold runBody
    rw [runStmts_append, hreach]
    simp only [Step.andThen, runStmts, hstep, Step.after]
  refine ⟨hstep, hbody, ?_, ?_, ?_⟩
  · show (runBody _ final s).result = _
    rw [hbody]
  · refine ⟨"Assertion failed: \"",
      "\" (" ++ STRINGIFY text ++ ")\n" ++ "            in " ++ AT file line ++ "\n", ?_⟩
    simp only [failureText, String.append_assoc]
  · refine ⟨"Assertion failed: \"" ++ message ++ "\" (",
      ")\n" ++ "            in " ++ AT file line ++ "\n", ?_⟩
    simp only [failureText, STRINGIFY, String.append_assoc]

/-- Witness of C3: in caseB the assertion `MU_ASSERT("y", 1==2)` follows one
statement and is followed by another; the case returns the diagnostic, which
contains `y` and `1==2`, and the statement after the assertion leaves no mark. -/
theorem C3_assert_false_returns_diagnostic_witness :
    runBody [tick "before", MU_ASSERT true "suite.c" 15 "y" "1==2" (constPred false),
        tick "after"] MU_NULL stale =
        ⟨some "Assertion failed: \"y\" (1==2)\n            in suite.c:15\n",
          ⟨wrapInt 7, wrapInt 9, ["before"]⟩, [Event.eval "1==2"]⟩ ∧
      Contains (failureText "suite.c" 15 "y" "1==2") "y" ∧
      Contains (failureText "suite.c" 15 "y" "1==2") "1==2" :=
  have h := C3_assert_false_returns_diagnostic true "suite.c" 15 "y" "1==2"
    (constPred false) [tick "before"] [tick "after"] MU_NULL stale
    ⟨wrapInt 7, wrapInt 9, ["before"]⟩ [] rfl rfl
  ⟨h.2.1, h.2.2.2.1, h.2.2.2.2⟩

/-- C4: when control reaches `MU_ASSERT(message, test)` and the predicate
evaluates true, the assertion does not return and yields no diagnostic: it
falls through in the state the predicate left, its only events being the
evaluation and the verbose trace, and the enclosing function goes on with the
statements after it, whose result, state and events are those of the
function. -/
theorem C4_assert_true_falls_through {σ : Type} (MU_PRINT : Bool) (file : String)
    (line : Nat) (message text : String) (test : Pred σ) (pre post : List (Stmt σ))
    (final : MU_RET) (s s1 : State σ) (t1 : List Event)
    (hreach : runStmts pre s = Step.next s1 t1)
    (htrue : (test s1).1 = true) :
    MU_ASSERT MU_PRINT file line message text test s1 =
        Step.next (test s1).2
          (Event.eval text :: MU_PRINT_VERBOSE MU_PRINT (okText message text)) ∧
      (MU_ASSERT MU_PRINT file line message text test s1).returned = none ∧
      channel DebugLevel.DEBUG_LEVEL_ERROR
        (MU_ASSERT MU_PRINT file line message text test s1).tr = [] ∧
      runBody (pre ++ MU_ASSERT MU_PRINT file line message text test :: post) final s =
        ⟨(runBody post final (test s1).2).result, (runBody post final (test s1).2).st,
          t1 ++ (Event.eval text :: MU_PRINT_VERBOSE MU_PRINT (okText message text) ++
            (runBody post final (test s1).2).tr)⟩ := by
  have hstep : MU_ASSERT MU_PRINT file line message text test s1 =
      Step.next (test s1).2
        (Event.eval text :: MU_PRINT_VERBOSE MU_PRINT (okText message text)) := by
    simp [MU_ASSERT, htrue]
  refine ⟨hstep, by rw [hstep]; rfl, ?_, ?_⟩
  · rw [hstep]
    cases MU_PRINT <;> simp [Step.tr, channel, MU_PRINT_VERBOSE, DEBUG_PRINT]
  · unfold runBody
    rw [runStmts_append, hreach]
    simp only [Step.andThen, runStmts, hstep]
    cases runStmts post (test s1).2 <;> simp [Step.after]

/-- Witness of C4: in caseA the assertion `MU_ASSERT("x", 1==1)` is followed
by a statement, which runs; the case returns its final `MU_NULL`. -/
theorem C4_assert_true_falls_through_witness :
    runBody [tick "before", MU_ASSERT true "suite.c" 10 "x" "1==1" (constPred true),
        tick "after"] MU_NULL stale =
      ⟨MU_NULL, ⟨wrapInt 7, wrapInt 9, ["before", "after"]⟩,
        [Event.eval "1==1",
          Event.print DebugLevel.DEBUG_LEVEL_VERBOSE "Assertion ok: \"x\" (1==1)\n"]⟩ :=
  (C4_assert_true_falls_through true "suite.c" 10 "x" "1==1"
    (constPred true) [tick "before"] [tick "after"] MU_NULL stale
    ⟨wrapInt 7, wrapInt 9, ["before"]⟩ [] rfl rfl).2.2.2

/-- C5, as stated, fails: caseC returns `MU_NULL`, yet `MU_RUN_TEST(caseC)`
executed with `run` at the largest `int` leaves `run` at the smallest `int`,
not at one more than before. -/
theorem C5_run_test_counterexample :
    (caseC saturated).1 = MU_NULL ∧
      (caseC saturated).2.1.mu_tests_run.val = 2147483647 ∧
      (MU_RUN_TEST true "caseC" caseC saturated).st.mu_tests_run.val = -2147483648 ∧
      (MU_RUN_TEST true "caseC" caseC saturated).st.mu_tests_run.val ≠
        (caseC saturated).2.1.mu_tests_run.val + 1 := by
  decide

/-- C5, amended: `MU_RUN_TEST(c)` calls `c` exactly once and then: if `c`
returns a diagnostic `d`, the enclosing function returns that same `d` at once,
in the state `c` left (so `run` is not incremented); if `c` returns `MU_NULL`,
the enclosing function goes on with the next statement after `run++`, which
adds exactly 1 to `run` whenever `run` is below the largest `int`. -/
theorem C5_run_test {σ : Type} (MU_PRINT : Bool) (name : String) (c : TestCase σ)
    (rest : List (Stmt σ)) (final : MU_RET) (s : State σ) :
    called (MU_RUN_TEST MU_PRINT name c s).tr = [name] ∧
      (∀ d, (c s).1 = some d →
        MU_RUN_TEST MU_PRINT name c s =
            Step.ret (some d) (c s).2.1 (Event.call name :: linesToEvents (c s).2.2) ∧
          runBody (MU_RUN_TEST MU_PRINT name c :: rest) final s =
            ⟨some d, (c s).2.1, Event.call name :: linesToEvents (c s).2.2⟩) ∧
      ((c s).1 = MU_NULL →
        (MU_RUN_TEST MU_PRINT name c s).returned = none ∧
          (MU_RUN_TEST MU_PRINT name c s).st =
            { (c s).2.1 with mu_tests_run := (c s).2.1.mu_tests_run.succ } ∧
          ((c s).2.1.mu_tests_run.val < INT_MAX →
            (MU_RUN_TEST MU_PRINT name c s).st.mu_tests_run.val =
              (c s).2.1.mu_tests_run.val + 1) ∧
          runStmts (MU_RUN_TEST MU_PRINT name c :: rest) s =
            Step.after (MU_RUN_TEST MU_PRINT name c s).tr
              (runStmts rest (MU_RUN_TEST MU_PRINT name c s).st)) := by
  have hl := called_linesToEvents (c s).2.2
  have hi := called_MU_PRINT_INFO MU_PRINT ("Test ok: \"" ++ STRINGIFY name ++ "\"\n")
  simp only [called] at hl hi
  refine ⟨?_, ?_, ?_⟩
  · cases hc : (c s).1 with
    | some d => simp [MU_RUN_TEST, hc, Step.tr, called, hl]
    | none => simp [MU_RUN_TEST, hc, Step.tr, called, hl, hi]
  · intro d hd
    have hstep : MU_RUN_TEST MU_PRINT name c s =
        Step.ret (some d) (c s).2.1 (Event.call name :: linesToEvents (c s).2.2) := by
      simp [MU_RUN_TEST, hd]
    refine ⟨hstep, ?_⟩
    simp only [runBody, runStmts, hstep, Step.andThen]
  · intro hnull
    have hstep : MU_RUN_TEST MU_PRINT name c s =
        Step.next { (c s).2.1 with mu_tests_run := (c s).2.1.mu_tests_run.succ }
          (Event.call name :: linesToEvents (c s).2.2 ++
            MU_PRINT_INFO MU_PRINT ("Test ok: \"" ++ STRINGIFY name ++ "\"\n")) := by
      simp only [MU_NULL] at hnull
      simp [MU_RUN_TEST, hnull]
    refine ⟨by rw [hstep]; rfl, by rw [hstep]; rfl, ?_, ?_⟩
    · intro hlt
      rw [hstep]
      exact CInt.succ_val hlt
    · simp only [runStmts, hstep, Step.andThen, Step.tr, Step.st]

/-- Witness of C5: `MU_RUN_TEST(caseB)` returns the diagnostic of caseB and
leaves `run` at 7; `MU_RUN_TEST(caseA)` falls through with `run` at 8; each
calls its case once. -/
theorem C5_run_test_witness :
    (MU_RUN_TEST true "caseB" caseB stale).returned =
        some (some "Assertion failed: \"y\" (1==2)\n            in suite.c:15\n") ∧
      (MU_RUN_TEST true "caseB" caseB stale).st.mu_tests_run.val = 7 ∧
      called (MU_RUN_TEST true "caseB" caseB stale).tr = ["caseB"] ∧
      (MU_RUN_TEST true "caseA" caseA stale).returned = none ∧
      (MU_RUN_TEST true "caseA" caseA stale).st.mu_tests_run.val = 8 ∧
      called (MU_RUN_TEST true "caseA" caseA stale).tr = ["caseA"] :=
  have hB := C5_run_test true "caseB" caseB [] MU_NULL stale
  have hA := C5_run_test true "caseA" caseA [] MU_NULL stale
  have hBd := (hB.2.1 "Assertion failed: \"y\" (1==2)\n            in suite.c:15\n" rfl).1
  have hAn := hA.2.2 rfl
  ⟨congrArg Step.returned hBd, congrArg (fun st => st.st.mu_tests_run.val) hBd, hB.1,
    hAn.1, hAn.2.2.1 (by decide), hA.1⟩

theorem runAsserts_fail {σ : Type} (b : Bool) (pre post : List (Assertion σ))
    (a : Assertion σ) (s : State σ) (hpre : allHold pre s = true)
    (hfail : (a.test (afterHeld pre s)).1 = false) :
    runStmts ((pre ++ a :: post).map (Assertion.stmt b)) s =
      Step.ret (some a.diagnostic) (a.test (afterHeld pre s)).2
        (checksTrace b (pre.map Check.abort) s ++ [Event.eval a.text]) := by
  have hmap : ∀ l : List (Assertion σ),
      l.map (Assertion.stmt b) = (l.map Check.abort).map (Check.stmt b) := by
    intro l
    rw [List.map_map]
    rfl
  have hh := allHold_eq pre s
  rw [List.map_append, runStmts_append, hmap pre,
    runChecks_hold b (pre.map Check.abort) s (by rw [hh.1]; exact hpre), hh.2]
  simp only [List.map_cons, runStmts, Step.andThen, Assertion.stmt, MU_ASSERT, hfail]
  rfl

theorem runAsserts_hold {σ : Type} (b : Bool) (as : List (Assertion σ)) (s : State σ)
    (h : allHold as s = true) :
    runStmts (as.map (Assertion.stmt b)) s =
      Step.next (afterHeld as s) (checksTrace b (as.map Check.abort) s) := by
  have hmap : as.map (Assertion.stmt b) = (as.map Check.abort).map (Check.stmt b) := by
    rw [List.map_map]
    rfl
  have hh := allHold_eq as s
  rw [hmap, runChecks_hold b (as.map Check.abort) s (by rw [hh.1]; exact h), hh.2]

/-- C6: a test function whose body is a sequence of `MU_ASSERT` statements
followed by `return MU_NULL` returns the diagnostic of the first assertion
whose predicate is false, having evaluated the predicates up to that one and
no later one; it returns `MU_NULL` exactly when no predicate is false, having
evaluated every predicate once in source order; and its result is `MU_NULL` or
the diagnostic of one assertion, the first that fails. -/
theorem C6_first_failing_assertion {σ : Type} (MU_PRINT : Bool) (as : List (Assertion σ))
    (s : State σ) :
    (∀ pre a post, as = pre ++ a :: post → allHold pre s = true →
        (a.test (afterHeld pre s)).1 = false →
        (runBody (as.map (Assertion.stmt MU_PRINT)) MU_NULL s).result = some a.diagnostic ∧
          (runBody (as.map (Assertion.stmt MU_PRINT)) MU_NULL s).st =
            (a.test (afterHeld pre s)).2 ∧
          evaluated (runBody (as.map (Assertion.stmt MU_PRINT)) MU_NULL s).tr =
            (pre ++ [a]).map Assertion.text) ∧
      ((runBody (as.map (Assertion.stmt MU_PRINT)) MU_NULL s).result = MU_NULL ↔
        allHold as s = true) ∧
      (allHold as s = true →
        (runBody (as.map (Assertion.stmt MU_PRINT)) MU_NULL s).st = afterHeld as s ∧
          evaluated (runBody (as.map (Assertion.stmt MU_PRINT)) MU_NULL s).tr =
            as.map Assertion.text) ∧
      ((runBody (as.map (Assertion.stmt MU_PRINT)) MU_NULL s).result = MU_NULL ∨
        ∃ pre a post, as = pre ++ a :: post ∧ allHold pre s = true ∧
          (a.test (afterHeld pre s)).1 = false ∧
          (runBody (as.map (Assertion.stmt MU_PRINT)) MU_NULL s).result =
            some a.diagnostic) ∧
      (testFn (as.map (Assertion.stmt MU_PRINT)) MU_NULL s).1 =
        (runBody (as.map (Assertion.stmt MU_PRINT)) MU_NULL s).result := by
  have hfail : ∀ pre a post, as = pre ++ a :: post → allHold pre s = true →
      (a.test (afterHeld pre s)).1 = false →
      runBody (as.map (Assertion.stmt MU_PRINT)) MU_NULL s =
        ⟨some a.diagnostic, (a.test (afterHeld pre s)).2,
          checksTrace MU_PRINT (pre.map Check.abort) s ++ [Event.eval a.text]⟩ := by
    intro pre a post he hp hf
    unfold runBody
    rw [he, runAsserts_fail MU_PRINT pre post a s hp hf]
  have hhold : allHold as s = true →
      runBody (as.map (Assertion.stmt MU_PRINT)) MU_NULL s =
        ⟨MU_NULL, afterHeld as s, checksTrace MU_PRINT (as.map Check.abort) s⟩ := by
    intro h
    unfold runBody
    rw [runAsserts_hold MU_PRINT as s h]
  have hev : ∀ l : List (Assertion σ), allHold l s = true →
      evaluated (checksTrace MU_PRINT (l.map Check.abort) s) = l.map Assertion.text := by
    intro l hl
    rw [evaluated_checksTrace MU_PRINT (l.map Check.abort) s (by rw [(allHold_eq l s).1]; exact hl),
      List.map_map]
    rfl
  refine ⟨?_, ?_, ?_, ?_, rfl⟩
  · intro pre a post he hp hf
    rw [hfail pre a post he hp hf]
    refine ⟨rfl, rfl, ?_⟩
    show evaluated (_ ++ [Event.eval a.text]) = _
    rw [evaluated_append, hev pre hp, List.map_append]
    rfl
  · constructor
    · intro hres
      cases hall : allHold as s with
      | true => rfl
      | false =>
        obtain ⟨pre, a, post, he, hp, hf⟩ := first_failure as s hall
        rw [hfail pre a post he hp hf] at hres
        exact Option.noConfusion hres
    · intro h
      rw [hhold h]
  · intro h
    rw [hhold h]
    exact ⟨rfl, hev as h⟩
  · cases hall : allHold as s with
    | true =>
      left
      rw [hhold hall]
    | false =>
      right
      obtain ⟨pre, a, post, he, hp, hf⟩ := first_failure as s hall
      exact ⟨pre, a, post, he, hp, hf, by rw [hfail pre a post he hp hf]⟩

/-- Witness of C6: of three assertions the second and the third have a false
predicate; the function returns the diagnostic of the second and the
predicate of the third is not evaluated. -/
theorem C6_first_failing_assertion_witness :
    (runBody ([noting 3 "a" "p1" true, noting 4 "b" "p2" false, noting 5 "c" "p3" false].map
        (Assertion.stmt true)) MU_NULL stale).result =
        some "Assertion failed: \"b\" (p2)\n            in suite.c:4\n" ∧
      (runBody ([noting 3 "a" "p1" true, noting 4 "b" "p2" false, noting 5 "c" "p3" false].map
        (Assertion.stmt true)) MU_NULL stale).st.mem = ["p1", "p2"] ∧
      evaluated (runBody ([noting 3 "a" "p1" true, noting 4 "b" "p2" false,
        noting 5 "c" "p3" false].map (Assertion.stmt true)) MU_NULL stale).tr = ["p1", "p2"] :=
  have h := (C6_first_failing_assertion true
    [noting 3 "a" "p1" true, noting 4 "b" "p2" false, noting 5 "c" "p3" false] stale).1
    [noting 3 "a" "p1" true] (noting 4 "b" "p2" false) [noting 5 "c" "p3" false] rfl rfl rfl
  ⟨h.1, congrArg State.mem h.2.1, h.2.2⟩

theorem printed_cons_eval (t : String) (tr : List Event) :
    printed (Event.eval t :: tr) = printed tr := rfl

/-- C7, as stated, fails: built without `MU_PRINT`, `MU_ASSERT_PRINT` on a
false predicate hands no line to the print sink. -/
theorem C7_assert_print_counterexample :
    (constPred false stale).1 = false ∧
      printed (MU_ASSERT_PRINT false "suite.c" 15 "y" "1==2" (constPred false) stale).tr = [] ∧
      (printed
        (MU_ASSERT_PRINT false "suite.c" 15 "y" "1==2" (constPred false) stale).tr).length ≠ 1 := by
  decide

/-- C7, amended: when control reaches an `MU_ASSERT_PRINT` whose predicate
evaluates false, in a test function whose `MU_ASSERT` checks all hold, the
assertion hands exactly one line, its diagnostic on the error channel, to the
print sink if `MU_PRINT` is defined and no line otherwise; it does not return
and leaves the state, counters included, as the evaluation of the predicate
left it; the function goes on with the checks that follow and returns
`MU_NULL`, and `MU_RUN_TEST` on it falls through after `run++`. -/
theorem C7_assert_print_reports_and_continues {σ : Type} (MU_PRINT : Bool) (name : String)
    (pre post : List (Check σ)) (a : Assertion σ) (s : State σ)
    (hothers : abortsHold (pre ++ Check.report a :: post) s = true)
    (hfalse : (a.test (afterChecks pre s)).1 = false) :
    a.printStmt MU_PRINT (afterChecks pre s) =
        Step.next (a.test (afterChecks pre s)).2
          (Event.eval a.text :: MU_PRINT_ERROR MU_PRINT a.diagnostic) ∧
      printed (a.printStmt MU_PRINT (afterChecks pre s)).tr =
        (if MU_PRINT then [(DebugLevel.DEBUG_LEVEL_ERROR, a.diagnostic)] else []) ∧
      (a.printStmt MU_PRINT (afterChecks pre s)).returned = none ∧
      (a.printStmt MU_PRINT (afterChecks pre s)).st = (a.test (afterChecks pre s)).2 ∧
      runBody ((pre ++ Check.report a :: post).map (Check.stmt MU_PRINT)) MU_NULL s =
        ⟨MU_NULL, afterChecks post (a.test (afterChecks pre s)).2,
          checksTrace MU_PRINT (pre ++ Check.report a :: post) s⟩ ∧
      (MU_RUN_TEST MU_PRINT name
        (testFn ((pre ++ Check.report a :: post).map (Check.stmt MU_PRINT)) MU_NULL)
          s).returned = none ∧
      (MU_RUN_TEST MU_PRINT name
        (testFn ((pre ++ Check.report a :: post).map (Check.stmt MU_PRINT)) MU_NULL)
          s).st.mu_tests_run =
        (afterChecks post (a.test (afterChecks pre s)).2).mu_tests_run.succ := by
  have hstep : a.printStmt MU_PRINT (afterChecks pre s) =
      Step.next (a.test (afterChecks pre s)).2
        (Event.eval a.text :: MU_PRINT_ERROR MU_PRINT a.diagnostic) := by
    simp [Assertion.printStmt, MU_ASSERT_PRINT, hfalse, Assertion.diagnostic]
  have hbody : runBody ((pre ++ Check.report a :: post).map (Check.stmt MU_PRINT)) MU_NULL s =
      ⟨MU_NULL, afterChecks post (a.test (afterChecks pre s)).2,
        checksTrace MU_PRINT (pre ++ Check.report a :: post) s⟩ := by
    unfold runBody
    rw [runChecks_hold MU_PRINT _ s hothers, afterChecks_append]
    rfl
  have hcase : (testFn ((pre ++ Check.report a :: post).map (Check.stmt MU_PRINT)) MU_NULL
      s).1 = none := by
    show (runBody _ MU_NULL s).result = none
    rw [hbody]
    rfl
  have hst : (testFn ((pre ++ Check.report a :: post).map (Check.stmt MU_PRINT)) MU_NULL
      s).2.1 = afterChecks post (a.test (afterChecks pre s)).2 := by
    show (runBody _ MU_NULL s).st = _
    rw [hbody]
  refine ⟨hstep, ?_, by rw [hstep]; rfl, by rw [hstep]; rfl, hbody, ?_, ?_⟩
  · rw [hstep]
    cases MU_PRINT <;> rfl
  · simp only [MU_RUN_TEST, hcase]
    rfl
  · simp only [MU_RUN_TEST, hcase, hst]
    rfl

/-- Witness of C7: a test function with a failing `MU_ASSERT_PRINT` between
two passing `MU_ASSERT`s, built with `MU_PRINT`: one error line is printed,
the later assertion is evaluated, and `MU_RUN_TEST` counts the case. -/
theorem C7_assert_print_reports_and_continues_witness :
    printed ((noting 4 "b" "p2" false).printStmt true
        (afterChecks [Check.abort (noting 3 "a" "p1" true)] stale)).tr =
        [(DebugLevel.DEBUG_LEVEL_ERROR,
          "Assertion failed: \"b\" (p2)\n            in suite.c:4\n")] ∧
      (runBody (([Check.abort (noting 3 "a" "p1" true)] ++
        Check.report (noting 4 "b" "p2" false) ::
          [Check.abort (noting 5 "c" "p3" true)]).map (Check.stmt true)) MU_NULL stale).result =
        MU_NULL ∧
      (runBody (([Check.abort (noting 3 "a" "p1" true)] ++
        Check.report (noting 4 "b" "p2" false) ::
          [Check.abort (noting 5 "c" "p3" true)]).map (Check.stmt true)) MU_NULL stale).st.mem =
        ["p1", "p2", "p3"] ∧
      (MU_RUN_TEST true "mixed"
        (testFn (([Check.abort (noting 3 "a" "p1" true)] ++
          Check.report (noting 4 "b" "p2" false) ::
            [Check.abort (noting 5 "c" "p3" true)]).map (Check.stmt true)) MU_NULL)
          stale).st.mu_tests_run.val = 8 :=
  have h := C7_assert_print_reports_and_continues true "mixed"
    [Check.abort (noting 3 "a" "p1" true)] [Check.abort (noting 5 "c" "p3" true)]
    (noting 4 "b" "p2" false) stale rfl rfl
  ⟨h.2.1, congrArg Outcome.result h.2.2.2.2.1, congrArg (fun o => o.st.mem) h.2.2.2.2.1,
    congrArg CInt.val h.2.2.2.2.2.2⟩

theorem after_returned {σ : Type} (t : List Event) (st : Step σ) :
    (Step.after t st).returned = st.returned := by
  cases st <;> rfl

theorem after_st {σ : Type} (t : List Event) (st : Step σ) :
    (Step.after t st).st = st.st := by
  cases st <;> rfl

theorem runBody_result {σ : Type} (body : List (Stmt σ)) (final : MU_RET) (s : State σ) :
    (runBody body final s).result = ((runStmts body s).returned).getD final ∧
      (runBody body final s).st = (runStmts body s).st := by
  unfold runBody
  cases runStmts body s <;> exact ⟨rfl, rfl⟩

theorem runTests_agree {σ τ : Type} (b : Bool) (cs : List (Named σ)) (v : State σ → τ)
    (hv : ∀ (s : State σ) (r t : CInt), v { s with mu_tests_run := r, mu_tests := t } = v s)
    (hkeep : ∀ c ∈ cs, KeepsCounters c.2)
    (hres : ∀ c ∈ cs, ∀ s s2 : State σ, v s = v s2 → (c.2 s).1 = (c.2 s2).1)
    (hpres : ∀ c ∈ cs, ∀ s : State σ, v (c.2 s).2.1 = v s)
    (s1 s2 : State σ) (hview : v s1 = v s2) (hr : s1.mu_tests_run = s2.mu_tests_run)
    (ht : s1.mu_tests = s2.mu_tests) :
    (runStmts (cs.map fun c => MU_RUN_TEST b c.1 c.2) s1).returned =
        (runStmts (cs.map fun c => MU_RUN_TEST b c.1 c.2) s2).returned ∧
      (runStmts (cs.map fun c => MU_RUN_TEST b c.1 c.2) s1).st.mu_tests_run =
        (runStmts (cs.map fun c => MU_RUN_TEST b c.1 c.2) s2).st.mu_tests_run ∧
      (runStmts (cs.map fun c => MU_RUN_TEST b c.1 c.2) s1).st.mu_tests =
        (runStmts (cs.map fun c => MU_RUN_TEST b c.1 c.2) s2).st.mu_tests ∧
      v (runStmts (cs.map fun c => MU_RUN_TEST b c.1 c.2) s1).st = v s1 := by
  induction cs generalizing s1 s2 with
  | nil => exact ⟨rfl, hr, ht, rfl⟩
  | cons c cs ih =>
    have hc := hres c (List.mem_cons_self _ _) s1 s2 hview
    have hk1 := hkeep c (List.mem_cons_self _ _) s1
    have hk2 := hkeep c (List.mem_cons_self _ _) s2
    have hp1 := hpres c (List.mem_cons_self _ _) s1
    have hp2 := hpres c (List.mem_cons_self _ _) s2
    cases h1 : (c.2 s1).1 with
    | some d =>
      have h2 : (c.2 s2).1 = some d := by rw [← hc, h1]
      simp only [List.map_cons, runStmts, MU_RUN_TEST, h1, h2, Step.andThen, Step.returned,
        Step.st]
      exact ⟨trivial, by rw [hk1.1, hk2.1, hr], by rw [hk1.2, hk2.2, ht], hp1⟩
    | none =>
      have h2 : (c.2 s2).1 = none := by rw [← hc, h1]
      have hv1 : v (recorded c s1) = v s1 := by
        rw [← hp1]
        exact hv (c.2 s1).2.1 _ (c.2 s1).2.1.mu_tests
      have hv2 : v (recorded c s2) = v s2 := by
        rw [← hp2]
        exact hv (c.2 s2).2.1 _ (c.2 s2).2.1.mu_tests
      have hrr : (recorded c s1).mu_tests_run = (recorded c s2).mu_tests_run := by
        show (c.2 s1).2.1.mu_tests_run.succ = (c.2 s2).2.1.mu_tests_run.succ
        rw [hk1.1, hk2.1, hr]
      have htt : (recorded c s1).mu_tests = (recorded c s2).mu_tests := by
        show (c.2 s1).2.1.mu_tests = (c.2 s2).2.1.mu_tests
        rw [hk1.2, hk2.2, ht]
      have hrec := ih (fun x hx => hkeep x (List.mem_cons_of_mem _ hx))
        (fun x hx => hres x (List.mem_cons_of_mem _ hx))
        (fun x hx => hpres x (List.mem_cons_of_mem _ hx))
        (recorded c s1) (recorded c s2) (by rw [hv1, hv2, hview]) hrr htt
      simp only [List.map_cons, runStmts, MU_RUN_TEST, h1, h2, Step.andThen, after_returned,
        after_st]
      exact ⟨hrec.1, hrec.2.1, hrec.2.2.1, by rw [← hv1]; exact hrec.2.2.2⟩

theorem suite_result {σ : Type} (b : Bool) (n : CInt) (cs : List (Named σ)) (s : State σ) :
    (suite b n cs s).result =
        ((runStmts (cs.map fun c => MU_RUN_TEST b c.1 c.2) (entry n s)).returned).getD MU_NULL ∧
      (suite b n cs s).st = (runStmts (cs.map fun c => MU_RUN_TEST b c.1 c.2) (entry n s)).st := by
  rw [suite_eq]
  cases runStmts (cs.map fun c => MU_RUN_TEST b c.1 c.2) (entry n s) <;> exact ⟨rfl, rfl⟩

/-- C8: let the results of the cases depend only on a part `v` of the state
that no case changes and that the counters do not belong to, and let no case
write the counters.  Then running the suite again in the state the first run
left yields the same result and the same `run` and `total` as the first run;
and for any cases at all, the outcome of the suite does not depend on the
values `run` and `total` hold at entry. -/
theorem C8_suite_idempotent {σ τ : Type} (MU_PRINT : Bool) (N : CInt)
    (cases : List (Named σ)) (v : State σ → τ) (s : State σ)
    (hv : ∀ (x : State σ) (r t : CInt), v { x with mu_tests_run := r, mu_tests := t } = v x)
    (hkeep : ∀ c ∈ cases, KeepsCounters c.2)
    (hres : ∀ c ∈ cases, ∀ x y : State σ, v x = v y → (c.2 x).1 = (c.2 y).1)
    (hpres : ∀ c ∈ cases, ∀ x : State σ, v (c.2 x).2.1 = v x) :
    (suite MU_PRINT N cases (suite MU_PRINT N cases s).st).result =
        (suite MU_PRINT N cases s).result ∧
      (suite MU_PRINT N cases (suite MU_PRINT N cases s).st).st.mu_tests_run =
        (suite MU_PRINT N cases s).st.mu_tests_run ∧
      (suite MU_PRINT N cases (suite MU_PRINT N cases s).st).st.mu_tests =
        (suite MU_PRINT N cases s).st.mu_tests ∧
      ∀ (others : List (Named σ)) (r t : CInt),
        suite MU_PRINT N others { s with mu_tests_run := r, mu_tests := t } =
          suite MU_PRINT N others s := by
  have hfirst := suite_result MU_PRINT N cases s
  have hsecond := suite_result MU_PRINT N cases (suite MU_PRINT N cases s).st
  have hinv := (runTests_agree MU_PRINT cases v hv hkeep hres hpres (entry N s) (entry N s)
    rfl rfl rfl).2.2.2
  have hview : v (entry N (suite MU_PRINT N cases s).st) = v (entry N s) := by
    rw [hfirst.2]
    exact (hv _ CInt.zero N).trans hinv
  have hagree := runTests_agree MU_PRINT cases v hv hkeep hres hpres
    (entry N (suite MU_PRINT N cases s).st) (entry N s) hview rfl rfl
  refine ⟨?_, ?_, ?_, ?_⟩
  · exact hsecond.1.trans ((congrArg (fun o => o.getD MU_NULL) hagree.1).trans hfirst.1.symm)
  · exact (congrArg State.mu_tests_run hsecond.2).trans
      (hagree.2.1.trans (congrArg State.mu_tests_run hfirst.2).symm)
  · exact (congrArg State.mu_tests hsecond.2).trans
      (hagree.2.2.1.trans (congrArg State.mu_tests hfirst.2).symm)
  · intro others r t
    rw [suite_eq, suite_eq]
    rfl

theorem scenario_results : ∀ c ∈ scenario, ∀ x y : State (List String),
    (fun _ : State (List String) => ()) x = (fun _ : State (List String) => ()) y →
      (c.2 x).1 = (c.2 y).1 := by
  intro c hc x y _
  simp only [scenario, List.mem_cons, List.mem_singleton, List.not_mem_nil, or_false] at hc
  rcases hc with rfl | rfl | rfl <;> rfl

/-- Witness of C8: the scenario, whose cases have fixed results, run a second
time in the state the first run left: same diagnostic, `run = 1`, `total = 3`. -/
theorem C8_suite_idempotent_witness :
    (suite true three scenario (suite true three scenario stale).st).result =
        some "Assertion failed: \"y\" (1==2)\n            in suite.c:15\n" ∧
      (suite true three scenario (suite true three scenario stale).st).st.mu_tests_run.val = 1 ∧
      (suite true three scenario (suite true three scenario stale).st).st.mu_tests.val = 3 :=
  have h := C8_suite_idempotent true three scenario (fun _ => ()) stale
    (fun _ _ _ => rfl) scenario_keeps scenario_results (fun _ _ _ => rfl)
  ⟨h.1.trans (by decide), (congrArg CInt.val h.2.1).trans (by decide),
    (congrArg CInt.val h.2.2.1).trans (by decide)⟩

theorem splitLines_line (a rest : List Char) (ha : '\n' ∉ a) :
    splitLines (a ++ '\n' :: rest) = a :: splitLines rest := by
  induction a with
  | nil => simp [splitLines]
  | cons c a ih =>
    have hc : c ≠ '\n' := fun h => ha (by rw [h]; exact List.mem_cons_self _ _)
    have ha2 : '\n' ∉ a := fun h => ha (List.mem_cons_of_mem _ h)
    have step : splitLines (c :: (a ++ '\n' :: rest)) = (c :: a) :: splitLines rest := by
      simp only [splitLines, hc, if_false, ih ha2]
    exact step

theorem splitLines_last (x y : List Char) (hy : '\n' ∉ y) :
    ∃ init, init ≠ [] ∧ splitLines (x ++ '\n' :: (y ++ ['\n'])) = init ++ [y] := by
  induction x with
  | nil =>
    refine ⟨[[]], by simp, ?_⟩
    have h := splitLines_line y [] hy
    simp only [List.nil_append, splitLines, if_true]
    rw [h]
    rfl
  | cons c x ih =>
    obtain ⟨init, hne, hs⟩ := ih
    by_cases hc : c = '\n'
    · refine ⟨[] :: init, by simp, ?_⟩
      have step : splitLines (c :: (x ++ '\n' :: (y ++ ['\n']))) = [] :: (init ++ [y]) := by
        simp only [splitLines, hc, if_true, hs]
      exact step
    · cases init with
      | nil => exact absurd rfl hne
      | cons l ls =>
        refine ⟨(c :: l) :: ls, by simp, ?_⟩
        have step : splitLines (c :: (x ++ '\n' :: (y ++ ['\n']))) =
            (c :: l) :: (ls ++ [y]) := by
          simp only [splitLines, hc, if_false, hs, List.cons_append]
        exact step

theorem digitChar_no_newline (d : Nat) (h : d < 10) : Nat.digitChar d ≠ '\n' := by
  interval_cases d <;> decide

theorem toDigitsCore_no_newline (fuel n : Nat) (ds : List Char) (hds : '\n' ∉ ds) :
    '\n' ∉ Nat.toDigitsCore 10 fuel n ds := by
  induction fuel generalizing n ds with
  | zero => exact hds
  | succ fuel ih =>
    have hd : '\n' ∉ Nat.digitChar (n % 10) :: ds := by
      intro hmem
      rcases List.mem_cons.mp hmem with h | h
      · exact digitChar_no_newline (n % 10) (Nat.mod_lt _ (by decide)) h.symm
      · exact hds h
    simp only [Nat.toDigitsCore]
    split
    · exact hd
    · exact ih _ _ hd

theorem toString_no_newline (n : Nat) : '\n' ∉ (toString n).data := by
  show '\n' ∉ (Nat.toDigits 10 n).asString.data
  exact toDigitsCore_no_newline _ _ _ (by simp)

theorem failureText_flat (file : String) (line : Nat) (message text : String) :
    failureText file line message text =
      "Assertion failed: \"" ++ message ++ "\" (" ++ text ++ ")\n            in " ++ file ++
        ":" ++ toString line ++ "\n" := by
  apply String.ext
  simp [failureText, AT, TOSTRING, STRINGIFY, String.data_append]

theorem failureText_data (file : String) (line : Nat) (message text : String) :
    (failureText file line message text).data =
      ("Assertion failed: \"" ++ message ++ "\" (" ++ text ++ ")").data ++
        '\n' :: (("            in " ++ file ++ ":" ++ toString line).data ++ ['\n']) := by
  simp [failureText, AT, TOSTRING, STRINGIFY, String.data_append]

theorem location_no_newline (file : String) (line : Nat) (hf : NoNewline file) :
    '\n' ∉ ("            in " ++ file ++ ":" ++ toString line).data := by
  have hn := toString_no_newline line
  unfold NoNewline at hf
  simp only [String.data_append, List.mem_append, not_or]
  exact ⟨⟨⟨by decide, hf⟩, by decide⟩, hn⟩

/-- C9, as stated, fails: the diagnostic of `MU_ASSERT("y", 1==2)` at
`suite.c:15` has two lines, not three; message and predicate share the first,
and the second is the location. -/
theorem C9_layout_counterexample :
    textLines (failureText "suite.c" 15 "y" "1==2") =
        ["Assertion failed: \"y\" (1==2)", "            in suite.c:15"] ∧
      (textLines (failureText "suite.c" 15 "y" "1==2")).length ≠ 3 := by
  decide

/-- C9, amended: for a message, a predicate text and a file name without
newline characters, the diagnostic has a fixed two-line layout: the first line
is `Assertion failed: `, the message in quotes, then the predicate text in
parentheses; the second line is the source location on its own, as twelve
spaces, `in ` and `file:line`. -/
theorem C9_layout_two_lines (file : String) (line : Nat) (message text : String)
    (hm : NoNewline message) (ht : NoNewline text) (hf : NoNewline file) :
    textLines (failureText file line message text) =
      ["Assertion failed: \"" ++ message ++ "\" (" ++ text ++ ")",
        "            in " ++ file ++ ":" ++ toString line] := by
  have h1 : '\n' ∉ ("Assertion failed: \"" ++ message ++ "\" (" ++ text ++ ")").data := by
    unfold NoNewline at hm ht
    simp only [String.data_append, List.mem_append, not_or]
    exact ⟨⟨⟨⟨by decide, hm⟩, by decide⟩, ht⟩, by decide⟩
  have h2 := location_no_newline file line hf
  unfold textLines
  rw [failureText_data, splitLines_line _ _ h1]
  have h3 := splitLines_line _ [] h2
  rw [h3]
  rfl

/-- Witness of C9: the two lines of the diagnostic of `MU_ASSERT("y", 1==2)`
at `suite.c:15`. -/
theorem C9_layout_two_lines_witness :
    textLines (failureText "suite.c" 15 "y" "1==2") =
      ["Assertion failed: \"" ++ "y" ++ "\" (" ++ "1==2" ++ ")",
        "            in " ++ "suite.c" ++ ":" ++ toString 15] :=
  C9_layout_two_lines "suite.c" 15 "y" "1==2" (by decide) (by decide) (by decide)

/-- C10: the diagnostic of a failing `MU_ASSERT(m, p)` at line `n` of file `f`
is exactly `Assertion failed: "m" (p)`, a newline, twelve spaces, `in f:n`, a
newline: the failing assertion returns this text, the text ends with the
location `f:n` preceded by twelve spaces and `in ` and followed by the final
newline, and when `f` has no newline character that is its last line. -/
theorem C10_diagnostic_exact_text {σ : Type} (MU_PRINT : Bool) (f : String) (n : Nat)
    (m p : String) (test : Pred σ) (s : State σ) :
    failureText f n m p =
        "Assertion failed: \"" ++ m ++ "\" (" ++ p ++ ")\n            in " ++ f ++ ":" ++
          toString n ++ "\n" ∧
      ((test s).1 = false →
        (MU_ASSERT MU_PRINT f n m p test s).returned =
          some (some ("Assertion failed: \"" ++ m ++ "\" (" ++ p ++ ")\n            in " ++ f ++
            ":" ++ toString n ++ "\n"))) ∧
      failureText f n m p =
        "Assertion failed: \"" ++ m ++ "\" (" ++ p ++ ")" ++ "\n" ++
          (String.mk (List.replicate 12 ' ') ++ "in " ++ f ++ ":" ++ toString n) ++ "\n" ∧
      (NoNewline f →
        ∃ init, init ≠ [] ∧
          textLines (failureText f n m p) =
            init ++ [String.mk (List.replicate 12 ' ') ++ "in " ++ f ++ ":" ++ toString n]) := by
  have hflat := failureText_flat f n m p
  refine ⟨hflat, ?_, ?_, ?_⟩
  · intro hfalse
    rw [← hflat]
    simp [MU_ASSERT, hfalse, Step.returned]
  · apply String.ext
    simp [failureText, AT, TOSTRING, STRINGIFY, String.data_append]
  · intro hf
    have h2 := location_no_newline f n hf
    obtain ⟨init, hne, hs⟩ := splitLines_last
      ("Assertion failed: \"" ++ m ++ "\" (" ++ p ++ ")").data _ h2
    refine ⟨init.map String.mk, by simpa using hne, ?_⟩
    unfold textLines
    rw [failureText_data, hs, List.map_append]
    rfl

/-- Witness of C10: the diagnostic returned by `MU_ASSERT("y", 1==2)` at
`suite.c:15`, and its last line. -/
theorem C10_diagnostic_exact_text_witness :
    (MU_ASSERT true "suite.c" 15 "y" "1==2" (constPred false) stale).returned =
        some (some "Assertion failed: \"y\" (1==2)\n            in suite.c:15\n") ∧
      ∃ init, init ≠ [] ∧
        textLines (failureText "suite.c" 15 "y" "1==2") = init ++ ["            in suite.c:15"] :=
  have h := C10_diagnostic_exact_text true "suite.c" 15 "y" "1==2" (constPred false) stale
  ⟨h.2.1 rfl, h.2.2.2 (by decide)⟩

/-- C11: for a suite written to the convention (`run` reset, `total` set to the
number N of `MU_RUN_TEST` invocations, cases that do not write the counters),
the value `mu_tests-mu_tests_run` returned by `main` is 0 exactly when the
suite returned `MU_NULL`; and when case k is the first to fail it is
`N - (k-1)`, which is positive. -/
theorem C11_status_zero_iff_passed {σ : Type} (MU_PRINT : Bool) (N : CInt)
    (cases : List (Named σ)) (s : State σ)
    (hN : N.val = cases.length)
    (hkeep : ∀ c ∈ cases, KeepsCounters c.2) :
    ((main MU_PRINT N cases s).status.val = 0 ↔
        (suite MU_PRINT N cases s).result = MU_NULL) ∧
      ∀ (k : Nat) (ck : Named σ) (d : String), 1 ≤ k → cases[k - 1]? = some ck →
        allPass (cases.take (k - 1)) (entry N s) = true →
        (ck.2 (afterAll (cases.take (k - 1)) (entry N s))).1 = some d →
        (suite MU_PRINT N cases s).result = some d ∧
          (main MU_PRINT N cases s).status.val = N.val - ((k - 1 : Nat) : Int) ∧
          0 < (main MU_PRINT N cases s).status.val := by
  have hfailcase : ∀ (pre post : List (Named σ)) (ck : Named σ) (d : String),
      cases = pre ++ ck :: post → allPass pre (entry N s) = true →
      (ck.2 (afterAll pre (entry N s))).1 = some d →
      (suite MU_PRINT N cases s).result = some d ∧
        (main MU_PRINT N cases s).status.val = N.val - (pre.length : Int) ∧
        0 < (main MU_PRINT N cases s).status.val := by
    intro pre post ck d he hp hf
    subst he
    obtain ⟨hout, hrun, htot⟩ := suite_failAt MU_PRINT N pre post ck d s hN hkeep hp hf
    have hlen : (pre.length : Int) < N.val := by
      rw [hN]
      simp only [List.length_append, List.length_cons, Nat.cast_add, Nat.cast_one]
      omega
    have hstatus : (main MU_PRINT N (pre ++ ck :: post) s).status.val =
        N.val - (pre.length : Int) := by
      show (CInt.sub (suite MU_PRINT N (pre ++ ck :: post) s).st.mu_tests
        (suite MU_PRINT N (pre ++ ck :: post) s).st.mu_tests_run).val = _
      rw [hout]
      show (CInt.sub (ck.2 (afterAll pre (entry N s))).2.1.mu_tests
        (ck.2 (afterAll pre (entry N s))).2.1.mu_tests_run).val = _
      rw [CInt.sub_val (by rw [hrun]; omega) (by rw [hrun, htot]; omega), hrun, htot]
    refine ⟨by rw [hout], hstatus, ?_⟩
    rw [hstatus]
    omega
  refine ⟨?_, ?_⟩
  · cases hall : allPass cases (entry N s) with
    | true =>
      obtain ⟨hout, hrun, htot⟩ := suite_allPass MU_PRINT N cases s hN hkeep hall
      have hstatus : (main MU_PRINT N cases s).status.val = 0 := by
        show (CInt.sub (suite MU_PRINT N cases s).st.mu_tests
          (suite MU_PRINT N cases s).st.mu_tests_run).val = _
        rw [hout]
        show (CInt.sub (afterAll cases (entry N s)).mu_tests
          (afterAll cases (entry N s)).mu_tests_run).val = _
        have hN0 : 0 ≤ N.val := by rw [hN]; omega
        rw [CInt.sub_val (by rw [hrun]; exact hN0) (by rw [hrun, htot]), hrun, htot]
        omega
      constructor
      · intro _
        rw [hout]
      · intro _
        exact hstatus
    | false =>
      obtain ⟨pre, ck, post, d, he, hp, hf⟩ := first_failing_case cases (entry N s) hall
      obtain ⟨hres, _, hpos⟩ := hfailcase pre post ck d he hp hf
      constructor
      · intro h0
        omega
      · intro hnull
        rw [hres] at hnull
        exact Option.noConfusion hnull
  · intro k ck d hk hck hp hf
    obtain ⟨hsplit, _⟩ := split_at cases (k - 1) ck hck
    have hk1 : k - 1 + 1 = k := by omega
    rw [hk1] at hsplit
    have hlt : k - 1 < cases.length := by
      by_contra hge
      rw [List.getElem?_eq_none (by omega)] at hck
      exact Option.noConfusion hck
    have hlen : (cases.take (k - 1)).length = k - 1 := by
      rw [List.length_take]; omega
    have h := hfailcase (cases.take (k - 1)) (cases.drop k) ck d hsplit hp hf
    rw [hlen] at h
    exact h

/-- Witness of C11: for the scenario, where caseB (k = 2 of N = 3) fails,
`main` returns 2; for the suite of two passing cases it returns 0. -/
theorem C11_status_zero_iff_passed_witness :
    (main true three scenario stale).status.val = 2 ∧
      (main true three scenario stale).stdout =
        ["Assertion failed: \"y\" (1==2)\n            in suite.c:15\n\n",
          "Tests run: 1 of 3\n"] ∧
      (main true two passing stale).status.val = 0 :=
  have h := (C11_status_zero_iff_passed true three scenario stale rfl scenario_keeps).2
    2 ("caseB", caseB) "Assertion failed: \"y\" (1==2)\n            in suite.c:15\n"
    (by decide) rfl (by decide) (by decide)
  have h2 := (C11_status_zero_iff_passed true two passing stale rfl passing_keeps).1
  ⟨h.2.1, by decide, h2.2 (by decide)⟩

theorem channel_cons_eval (l : DebugLevel) (t : String) (tr : List Event) :
    channel l (Event.eval t :: tr) = channel l tr := rfl

/-- C12: one execution of `MU_ASSERT` or of `MU_ASSERT_PRINT` evaluates the
predicate exactly once, whether it is true or false: the events hold one
evaluation, the state left is the state one evaluation of the predicate
leaves, and a predicate that counts its evaluations has been evaluated one
more time than before.  The text of the predicate is a string of its own and
building it evaluates nothing. -/
theorem C12_predicate_evaluated_once {σ : Type} (MU_PRINT : Bool) (file : String)
    (line : Nat) (message text : String) (test : Pred σ) (s : State σ)
    (sc : State (σ × Nat)) :
    evaluated (MU_ASSERT MU_PRINT file line message text test s).tr = [text] ∧
      (MU_ASSERT MU_PRINT file line message text test s).st = (test s).2 ∧
      evaluated (MU_ASSERT_PRINT MU_PRINT file line message text test s).tr = [text] ∧
      (MU_ASSERT_PRINT MU_PRINT file line message text test s).st = (test s).2 ∧
      (MU_ASSERT MU_PRINT file line message text (counting test) sc).st.mem.2 =
        sc.mem.2 + 1 ∧
      (MU_ASSERT_PRINT MU_PRINT file line message text (counting test) sc).st.mem.2 =
        sc.mem.2 + 1 := by
  have hA : ∀ {τ : Type} (p : Pred τ) (x : State τ),
      evaluated (MU_ASSERT MU_PRINT file line message text p x).tr = [text] ∧
        (MU_ASSERT MU_PRINT file line message text p x).st = (p x).2 := by
    intro τ p x
    cases hp : (p x).1 with
    | false =>
      simp only [MU_ASSERT, hp, Step.tr, Step.st, Bool.not_false, if_true, and_true]
      rfl
    | true =>
      simp [MU_ASSERT, hp, Step.tr, Step.st, evaluated_cons_eval, evaluated_verbose]
  have hP : ∀ {τ : Type} (p : Pred τ) (x : State τ),
      evaluated (MU_ASSERT_PRINT MU_PRINT file line message text p x).tr = [text] ∧
        (MU_ASSERT_PRINT MU_PRINT file line message text p x).st = (p x).2 := by
    intro τ p x
    cases hp : (p x).1 <;>
      simp [MU_ASSERT_PRINT, hp, Step.tr, Step.st, evaluated_cons_eval, evaluated_verbose,
        evaluated_error]
  refine ⟨(hA test s).1, (hA test s).2, (hP test s).1, (hP test s).2, ?_, ?_⟩
  · rw [(hA (counting test) sc).2]
    rfl
  · rw [(hP (counting test) sc).2]
    rfl

/-- C13: `MU_ASSERT` and `MU_ASSERT_PRINT` evaluate the predicate alike and
leave the same state.  On failure the first returns the diagnostic and every
line the second hands to the error channel is that same text (one line when
`MU_PRINT` is defined), without returning.  On success the two are the same
step: no diagnostic, nothing on the error channel, and the same verbose trace
line. -/
theorem C13_variants_share_evaluation {σ : Type} (MU_PRINT : Bool) (file : String)
    (line : Nat) (message text : String) (test : Pred σ) (s : State σ) :
    (MU_ASSERT MU_PRINT file line message text test s).st =
        (MU_ASSERT_PRINT MU_PRINT file line message text test s).st ∧
      evaluated (MU_ASSERT MU_PRINT file line message text test s).tr =
        evaluated (MU_ASSERT_PRINT MU_PRINT file line message text test s).tr ∧
      ((test s).1 = false →
        (MU_ASSERT MU_PRINT file line message text test s).returned =
            some (some (failureText file line message text)) ∧
          (MU_ASSERT_PRINT MU_PRINT file line message text test s).returned = none ∧
          channel DebugLevel.DEBUG_LEVEL_ERROR
              (MU_ASSERT_PRINT MU_PRINT file line message text test s).tr =
            (if MU_PRINT then [failureText file line message text] else []) ∧
          ∀ l ∈ channel DebugLevel.DEBUG_LEVEL_ERROR
              (MU_ASSERT_PRINT MU_PRINT file line message text test s).tr,
            (MU_ASSERT MU_PRINT file line message text test s).returned = some (some l)) ∧
      ((test s).1 = true →
        MU_ASSERT MU_PRINT file line message text test s =
            MU_ASSERT_PRINT MU_PRINT file line message text test s ∧
          (MU_ASSERT MU_PRINT file line message text test s).returned = none ∧
          channel DebugLevel.DEBUG_LEVEL_ERROR
              (MU_ASSERT MU_PRINT file line message text test s).tr = [] ∧
          channel DebugLevel.DEBUG_LEVEL_VERBOSE
              (MU_ASSERT MU_PRINT file line message text test s).tr =
            (if MU_PRINT then [okText message text] else [])) := by
  cases hp : (test s).1 with
  | false =>
    have hstepA : MU_ASSERT MU_PRINT file line message text test s =
        Step.ret (some (failureText file line message text)) (test s).2 [Event.eval text] := by
      simp [MU_ASSERT, hp]
    have hstepP : MU_ASSERT_PRINT MU_PRINT file line message text test s =
        Step.next (test s).2
          (Event.eval text :: MU_PRINT_ERROR MU_PRINT (failureText file line message text)) := by
      simp [MU_ASSERT_PRINT, hp]
    have hch : channel DebugLevel.DEBUG_LEVEL_ERROR
        (MU_ASSERT_PRINT MU_PRINT file line message text test s).tr =
        (if MU_PRINT then [failureText file line message text] else []) := by
      rw [hstepP]
      cases MU_PRINT <;> rfl
    refine ⟨by rw [hstepA, hstepP]; rfl, ?_, ?_, ?_⟩
    · rw [hstepA, hstepP]
      show [text] = evaluated (Event.eval text :: _)
      rw [evaluated_cons_eval, evaluated_error]
    · intro _
      refine ⟨by rw [hstepA]; rfl, by rw [hstepP]; rfl, hch, ?_⟩
      intro l hl
      rw [hch] at hl
      cases MU_PRINT with
      | false => simp at hl
      | true =>
        simp only [if_true, List.mem_singleton] at hl
        rw [hstepA, hl]
        rfl
    · intro h
      exact Bool.noConfusion h
  | true =>
    have hstepA : MU_ASSERT MU_PRINT file line message text test s =
        Step.next (test s).2
          (Event.eval text :: MU_PRINT_VERBOSE MU_PRINT (okText message text)) := by
      simp [MU_ASSERT, hp]
    have hstepP : MU_ASSERT_PRINT MU_PRINT file line message text test s =
        Step.next (test s).2
          (Event.eval text :: MU_PRINT_VERBOSE MU_PRINT (okText message text)) := by
      simp [MU_ASSERT_PRINT, hp]
    refine ⟨by rw [hstepA, hstepP], by rw [hstepA, hstepP], ?_, ?_⟩
    · intro h
      exact Bool.noConfusion h
    · intro _
      refine ⟨by rw [hstepA, hstepP], by rw [hstepA]; rfl, ?_, ?_⟩
      · rw [hstepA]
        cases MU_PRINT <;> rfl
      · rw [hstepA]
        cases MU_PRINT <;> rfl

/-- Witness of C13: for `("y", 1==2)` at `suite.c:15`, built with `MU_PRINT`,
the line `MU_ASSERT_PRINT` prints is the text `MU_ASSERT` returns; for
`("x", 1==1)` the two macros are the same step. -/
theorem C13_variants_share_evaluation_witness :
    channel DebugLevel.DEBUG_LEVEL_ERROR
        (MU_ASSERT_PRINT true "suite.c" 15 "y" "1==2" (constPred false) stale).tr =
        ["Assertion failed: \"y\" (1==2)\n            in suite.c:15\n"] ∧
      (MU_ASSERT true "suite.c" 15 "y" "1==2" (constPred false) stale).returned =
        some (some "Assertion failed: \"y\" (1==2)\n            in suite.c:15\n") ∧
      MU_ASSERT true "suite.c" 10 "x" "1==1" (constPred true) stale =
        MU_ASSERT_PRINT true "suite.c" 10 "x" "1==1" (constPred true) stale :=
  have hF := (C13_variants_share_evaluation true "suite.c" 15 "y" "1==2"
    (constPred false) stale).2.2.1 rfl
  have hT := (C13_variants_share_evaluation true "suite.c" 10 "x" "1==1"
    (constPred true) stale).2.2.2 rfl
  ⟨hF.2.2.1, hF.1, hT.1⟩

theorem printed_append (a b : List Event) : printed (a ++ b) = printed a ++ printed b := by
  simp [printed, List.filterMap_append]

theorem printed_linesToEvents (ls : List Line) : printed (linesToEvents ls) = ls := by
  induction ls with
  | nil => rfl
  | cons l ls ih =>
    show l :: printed (linesToEvents ls) = l :: ls
    rw [ih]

theorem printed_cons_call (n : String) (tr : List Event) :
    printed (Event.call n :: tr) = printed tr := rfl

theorem after_tr {σ : Type} (t : List Event) (st : Step σ) :
    (Step.after t st).tr = t ++ st.tr := by
  cases st <;> rfl

theorem runBody_tr {σ : Type} (body : List (Stmt σ)) (final : MU_RET) (s : State σ) :
    (runBody body final s).tr = (runStmts body s).tr := by
  unfold runBody
  cases runStmts body s <;> rfl

theorem runStmts_sim {σ α : Type} (l : List α) (f g : α → Stmt σ)
    (h : ∀ x ∈ l, ∀ s, (f x s).returned = (g x s).returned ∧ (f x s).st = (g x s).st ∧
      printed (g x s).tr = []) (s : State σ) :
    (runStmts (l.map f) s).returned = (runStmts (l.map g) s).returned ∧
      (runStmts (l.map f) s).st = (runStmts (l.map g) s).st ∧
      printed (runStmts (l.map g) s).tr = [] := by
  induction l generalizing s with
  | nil => exact ⟨rfl, rfl, rfl⟩
  | cons x l ih =>
    have hx := h x (List.mem_cons_self _ _) s
    have ih2 := fun s1 => ih (fun y hy => h y (List.mem_cons_of_mem _ hy)) s1
    simp only [List.map_cons, runStmts]
    cases hf : f x s with
    | ret v s1 t1 =>
      cases hg : g x s with
      | ret w s2 t2 =>
        rw [hf, hg] at hx
        exact hx
      | next s2 t2 =>
        rw [hf, hg] at hx
        exact Option.noConfusion hx.1
    | next s1 t1 =>
      cases hg : g x s with
      | ret w s2 t2 =>
        rw [hf, hg] at hx
        exact Option.noConfusion hx.1
      | next s2 t2 =>
        rw [hf, hg] at hx
        have hs : s1 = s2 := hx.2.1
        have ht : printed t2 = [] := hx.2.2
        subst hs
        simp only [Step.andThen, after_returned, after_st, after_tr, printed_append, ht,
          List.nil_append]
        exact ih2 s1

theorem check_sim {σ : Type} (k : Check σ) (s : State σ) :
    (k.stmt true s).returned = (k.stmt false s).returned ∧
      (k.stmt true s).st = (k.stmt false s).st ∧ printed (k.stmt false s).tr = [] := by
  cases k with
  | abort a =>
    cases hp : (a.test s).1 <;>
      simp [Check.stmt, Assertion.stmt, MU_ASSERT, hp, Step.returned, Step.st, Step.tr,
        printed_cons_eval, MU_PRINT_VERBOSE] <;> rfl
  | report a =>
    cases hp : (a.test s).1 <;>
      simp [Check.stmt, Assertion.printStmt, MU_ASSERT_PRINT, hp, Step.returned, Step.st,
        Step.tr, printed_cons_eval, MU_PRINT_VERBOSE, MU_PRINT_ERROR] <;> rfl

theorem checksFn_builds {σ : Type} (ks : List (Check σ)) :
    SameProgram (checksFn ks) ∧ SilentWhenDisabled (checksFn ks) := by
  have h := fun s => runStmts_sim ks (Check.stmt true) (Check.stmt false)
    (fun k _ s1 => check_sim k s1) s
  refine ⟨?_, ?_⟩
  · intro s
    have hr1 := runBody_result (ks.map (Check.stmt true)) MU_NULL s
    have hr2 := runBody_result (ks.map (Check.stmt false)) MU_NULL s
    refine ⟨?_, ?_⟩
    · show (runBody _ MU_NULL s).result = (runBody _ MU_NULL s).result
      rw [hr1.1, hr2.1, (h s).1]
    · show (runBody _ MU_NULL s).st = (runBody _ MU_NULL s).st
      rw [hr1.2, hr2.2, (h s).2.1]
  · intro s
    show printed (runBody _ MU_NULL s).tr = []
    rw [runBody_tr]
    exact (h s).2.2

theorem runTest_sim {σ : Type} (c : String × Built σ) (hsame : SameProgram c.2)
    (hsilent : SilentWhenDisabled c.2) (s : State σ) :
    (MU_RUN_TEST true c.1 (c.2 true) s).returned =
        (MU_RUN_TEST false c.1 (c.2 false) s).returned ∧
      (MU_RUN_TEST true c.1 (c.2 true) s).st = (MU_RUN_TEST false c.1 (c.2 false) s).st ∧
      printed (MU_RUN_TEST false c.1 (c.2 false) s).tr = [] := by
  have h1 := (hsame s).1
  have h2 := (hsame s).2
  have h3 := hsilent s
  cases hr : (c.2 false s).1 with
  | some d =>
    rw [hr] at h1
    simp only [MU_RUN_TEST, hr, h1, h2, h3, Step.returned, Step.st, Step.tr, printed_cons_call,
      true_and]
    rfl
  | none =>
    rw [hr] at h1
    simp only [MU_RUN_TEST, hr, h1, h2, h3, Step.returned, Step.st, Step.tr, true_and]
    rfl

theorem item_sim {σ : Type} (i : Item σ) (hq : i.Quiet) (s : State σ) :
    (i.stmt true s).returned = (i.stmt false s).returned ∧
      (i.stmt true s).st = (i.stmt false s).st ∧ printed (i.stmt false s).tr = [] := by
  cases i with
  | check k => exact check_sim k s
  | plain st => exact ⟨rfl, rfl, hq s⟩

theorem mixedFn_builds {σ : Type} (items : List (Item σ)) (final : MU_RET)
    (hq : ∀ i ∈ items, i.Quiet) :
    SameProgram (mixedFn items final) ∧ SilentWhenDisabled (mixedFn items final) := by
  have h := fun s => runStmts_sim items (Item.stmt true) (Item.stmt false)
    (fun i hi s1 => item_sim i (hq i hi) s1) s
  refine ⟨?_, ?_⟩
  · intro s
    have hr1 := runBody_result (items.map (Item.stmt true)) final s
    have hr2 := runBody_result (items.map (Item.stmt false)) final s
    refine ⟨?_, ?_⟩
    · show (runBody _ final s).result = (runBody _ final s).result
      rw [hr1.1, hr2.1, (h s).1]
    · show (runBody _ final s).st = (runBody _ final s).st
      rw [hr1.2, hr2.2, (h s).2.1]
  · intro s
    show printed (runBody _ final s).tr = []
    rw [runBody_tr]
    exact (h s).2.2

/-- C14, as stated, fails for some lists of cases: a test function that tests
`MU_PRINT` itself makes the suite pass in one build and fail in the other; and
a test function that calls `DEBUG_PRINT` itself still prints in the build
without `MU_PRINT`. -/
theorem C14_disabled_sink_counterexample :
    (suite true one (build true [("flag", flagCase)]) stale).result = MU_NULL ∧
      (suite false one (build false [("flag", flagCase)]) stale).result =
        some "built without MU_PRINT" ∧
      (suite true one (build true [("flag", flagCase)]) stale).st.mu_tests_run.val = 1 ∧
      (suite false one (build false [("flag", flagCase)]) stale).st.mu_tests_run.val = 0 ∧
      printed (suite false one (build false [("chatty", fun _ => chatty)]) stale).tr =
        [(DebugLevel.DEBUG_LEVEL_INFO, "hello")] := by
  decide

/-- C14, amended: built without `MU_PRINT`, the three print macros produce
nothing; and for every suite whose cases are the same programs in both builds
and print only through these macros, the build without `MU_PRINT` returns the
same result and leaves the same state, `run` and `total` included, as the
build with it, and hands no line to the print sink.  Such cases are the test
functions whose bodies are made of `MU_ASSERT`, `MU_ASSERT_PRINT` and
statements that are the same in both builds and print nothing. -/
theorem C14_disabled_sink_changes_nothing_else {σ : Type} (N : CInt)
    (cases : List (String × Built σ)) (s : State σ)
    (hsame : ∀ c ∈ cases, SameProgram c.2)
    (hsilent : ∀ c ∈ cases, SilentWhenDisabled c.2) :
    (∀ msg, MU_PRINT_ERROR false msg = [] ∧ MU_PRINT_INFO false msg = [] ∧
        MU_PRINT_VERBOSE false msg = []) ∧
      (suite false N (build false cases) s).result =
        (suite true N (build true cases) s).result ∧
      (suite false N (build false cases) s).st = (suite true N (build true cases) s).st ∧
      printed (suite false N (build false cases) s).tr = [] ∧
      (∀ ks : List (Check σ), SameProgram (checksFn ks) ∧ SilentWhenDisabled (checksFn ks)) ∧
      ∀ (items : List (Item σ)) (final : MU_RET), (∀ i ∈ items, i.Quiet) →
        SameProgram (mixedFn items final) ∧ SilentWhenDisabled (mixedFn items final) := by
  have hmapT : (build true cases).map (fun c => MU_RUN_TEST true c.1 c.2) =
      cases.map fun c => MU_RUN_TEST true c.1 (c.2 true) := by
    unfold build
    rw [List.map_map]
    rfl
  have hmapF : (build false cases).map (fun c => MU_RUN_TEST false c.1 c.2) =
      cases.map fun c => MU_RUN_TEST false c.1 (c.2 false) := by
    unfold build
    rw [List.map_map]
    rfl
  have hsim := runStmts_sim cases (fun c => MU_RUN_TEST true c.1 (c.2 true))
    (fun c => MU_RUN_TEST false c.1 (c.2 false))
    (fun c hc s1 => runTest_sim c (hsame c hc) (hsilent c hc) s1) (entry N s)
  have hT := suite_result true N (build true cases) s
  have hF := suite_result false N (build false cases) s
  rw [hmapT] at hT
  rw [hmapF] at hF
  refine ⟨fun msg => ⟨rfl, rfl, rfl⟩, ?_, ?_, ?_, checksFn_builds, mixedFn_builds⟩
  · rw [hT.1, hF.1, hsim.1]
  · rw [hT.2, hF.2, hsim.2.1]
  · have htr : (suite false N (build false cases) s).tr =
        (runStmts (cases.map fun c => MU_RUN_TEST false c.1 (c.2 false)) (entry N s)).tr := by
      rw [suite_eq, hmapF]
      cases runStmts (cases.map fun c => MU_RUN_TEST false c.1 (c.2 false)) (entry N s) <;> rfl
    rw [htr]
    exact hsim.2.2

theorem firstBody_quiet : ∀ i ∈ firstBody, i.Quiet := by
  intro i hi
  simp only [firstBody, List.mem_cons, List.mem_singleton, List.not_mem_nil, or_false] at hi
  rcases hi with rfl | rfl | rfl
  · exact fun _ => rfl
  · exact trivial
  · exact trivial

theorem secondBody_quiet : ∀ i ∈ secondBody, i.Quiet := by
  intro i hi
  simp only [secondBody, List.mem_cons, List.mem_singleton, List.not_mem_nil, or_false] at hi
  rcases hi with rfl | rfl
  · exact fun _ => rfl
  · exact trivial

theorem builtCases_same : ∀ c ∈ builtCases, SameProgram c.2 := by
  intro c hc
  simp only [builtCases, List.mem_cons, List.mem_singleton, List.not_mem_nil, or_false] at hc
  rcases hc with rfl | rfl
  · exact (mixedFn_builds firstBody MU_NULL firstBody_quiet).1
  · exact (mixedFn_builds secondBody MU_NULL secondBody_quiet).1

theorem builtCases_silent : ∀ c ∈ builtCases, SilentWhenDisabled c.2 := by
  intro c hc
  simp only [builtCases, List.mem_cons, List.mem_singleton, List.not_mem_nil, or_false] at hc
  rcases hc with rfl | rfl
  · exact (mixedFn_builds firstBody MU_NULL firstBody_quiet).2
  · exact (mixedFn_builds secondBody MU_NULL secondBody_quiet).2

/-- Witness of C14: a suite of two cases whose bodies mix a plain statement
with the assertion macros returns the same diagnostic with `run = 1` and
`total = 2` in both builds; the build without `MU_PRINT` prints nothing, the other build prints three lines. -/
theorem C14_disabled_sink_changes_nothing_else_witness :
    (suite false two (build false builtCases) stale).result =
        some "Assertion failed: \"c\" (p3)\n            in suite.c:5\n" ∧
      (suite true two (build true builtCases) stale).result =
        some "Assertion failed: \"c\" (p3)\n            in suite.c:5\n" ∧
      (suite false two (build false builtCases) stale).st.mu_tests_run.val = 1 ∧
      (suite true two (build true builtCases) stale).st.mu_tests_run.val = 1 ∧
      (suite true two (build true builtCases) stale).st.mu_tests.val = 2 ∧
      printed (suite false two (build false builtCases) stale).tr = [] ∧
      (printed (suite true two (build true builtCases) stale).tr).length = 3 :=
  have h := C14_disabled_sink_changes_nothing_else two builtCases stale
    builtCases_same builtCases_silent
  ⟨by decide, h.2.1.symm.trans (by decide), by decide,
    (congrArg (fun st => st.mu_tests_run.val) h.2.2.1).symm.trans (by decide),
    (congrArg (fun st => st.mu_tests.val) h.2.2.1).symm.trans (by decide), h.2.2.2.1,
    by decide⟩

/-- C15: the diagnostic of a failing `MU_ASSERT` is never the "no failure"
value: for every message and predicate text, the empty ones included, it is a
non-empty text and a non-null result; so when control reaches an `MU_ASSERT`
whose predicate is false, `MU_RUN_TEST` on that test function returns the
diagnostic from the suite and leaves `run` as the test function left it. -/
theorem C15_failure_is_not_a_pass {σ : Type} (MU_PRINT : Bool) (name file : String)
    (line : Nat) (message text : String) (test : Pred σ) (pre post : List (Stmt σ))
    (final : MU_RET) (s s1 : State σ) (t1 : List Event)
    (hreach : runStmts pre s = Step.next s1 t1)
    (hfalse : (test s1).1 = false) :
    failureText file line message text ≠ "" ∧
      0 < (failureText file line message text).length ∧
      (some (failureText file line message text) : MU_RET) ≠ MU_NULL ∧
      (testFn (pre ++ MU_ASSERT MU_PRINT file line message text test :: post) final s).1 =
        some (failureText file line message text) ∧
      (MU_RUN_TEST MU_PRINT name
        (testFn (pre ++ MU_ASSERT MU_PRINT file line message text test :: post) final)
          s).returned = some (some (failureText file line message text)) ∧
      (MU_RUN_TEST MU_PRINT name
        (testFn (pre ++ MU_ASSERT MU_PRINT file line message text test :: post) final)
          s).st.mu_tests_run = (test s1).2.mu_tests_run := by
  have hdata := failureText_data file line message text
  have hlen : 0 < (failureText file line message text).length := by
    show 0 < (failureText file line message text).data.length
    rw [hdata]
    simp
  have hstep : MU_ASSERT MU_PRINT file line message text test s1 =
      Step.ret (some (failureText file line message text)) (test s1).2 [Event.eval text] := by
    simp [MU_ASSERT, hfalse]
  have hbody : runBody (pre ++ MU_ASSERT MU_PRINT file line message text test :: post) final s =
      ⟨some (failureText file line message text), (test s1).2, t1 ++ [Event.eval text]⟩ := by
    unfold runBody
    rw [runStmts_append, hreach]
    simp only [Step.andThen, runStmts, hstep, Step.after]
  have hres : (testFn (pre ++ MU_ASSERT MU_PRINT file line message text test :: post) final
      s).1 = some (failureText file line message text) := by
    show (runBody _ final s).result = _
    rw [hbody]
  have hst : (testFn (pre ++ MU_ASSERT MU_PRINT file line message text test :: post) final
      s).2.1 = (test s1).2 := by
    show (runBody _ final s).st = _
    rw [hbody]
  refine ⟨?_, hlen, ?_, hres, ?_, ?_⟩
  · intro he
    rw [he] at hlen
    exact Nat.lt_irrefl 0 hlen
  · intro he
    exact Option.noConfusion he
  · simp only [MU_RUN_TEST, hres]
    rfl
  · simp only [MU_RUN_TEST, hres, hst]
    rfl

/-- Witness of C15: with the empty message and the empty predicate text, a
failing `MU_ASSERT` yields a non-empty diagnostic and `MU_RUN_TEST` returns it
with `run` still at 7. -/
theorem C15_failure_is_not_a_pass_witness :
    failureText "suite.c" 15 "" "" = "Assertion failed: \"\" ()\n            in suite.c:15\n" ∧
      failureText "suite.c" 15 "" "" ≠ "" ∧
      (MU_RUN_TEST true "empty"
        (testFn ([tick "before"] ++ MU_ASSERT true "suite.c" 15 "" "" (constPred false) ::
          [tick "after"]) MU_NULL) stale).returned =
        some (some "Assertion failed: \"\" ()\n            in suite.c:15\n") ∧
      (MU_RUN_TEST true "empty"
        (testFn ([tick "before"] ++ MU_ASSERT true "suite.c" 15 "" "" (constPred false) ::
          [tick "after"]) MU_NULL) stale).st.mu_tests_run.val = 7 :=
  have h := C15_failure_is_not_a_pass true "empty" "suite.c" 15 "" "" (constPred false)
    [tick "before"] [tick "after"] MU_NULL stale ⟨wrapInt 7, wrapInt 9, ["before"]⟩ [] rfl rfl
  ⟨by decide, h.1, h.2.2.2.2.1, congrArg CInt.val h.2.2.2.2.2⟩

/-- C16: `MU_RUN_TEST` writes nothing but `run`: it leaves `total` and the rest
of the memory as the called test function left them, and `run` either as the
test function left it or after one `run++`.  `MU_ASSERT` and `MU_ASSERT_PRINT`
write nothing at all, whether the predicate is true or false: they leave the
state, `run` and `total` included, as the evaluation of the predicate left it,
which for a predicate without effect is the state they started in. -/
theorem C16_only_run_is_written {σ : Type} (MU_PRINT : Bool) (name file : String)
    (line : Nat) (message text : String) (c : TestCase σ) (test : Pred σ) (value : Bool)
    (s : State σ) :
    (MU_RUN_TEST MU_PRINT name c s).st.mu_tests = (c s).2.1.mu_tests ∧
      (MU_RUN_TEST MU_PRINT name c s).st.mem = (c s).2.1.mem ∧
      ((MU_RUN_TEST MU_PRINT name c s).st.mu_tests_run = (c s).2.1.mu_tests_run ∨
        (MU_RUN_TEST MU_PRINT name c s).st.mu_tests_run = (c s).2.1.mu_tests_run.succ) ∧
      (MU_ASSERT MU_PRINT file line message text test s).st = (test s).2 ∧
      (MU_ASSERT_PRINT MU_PRINT file line message text test s).st = (test s).2 ∧
      (MU_ASSERT MU_PRINT file line message text (constPred value) s).st = s ∧
      (MU_ASSERT_PRINT MU_PRINT file line message text (constPred value) s).st = s := by
  have hA : ∀ (p : Pred σ), (MU_ASSERT MU_PRINT file line message text p s).st = (p s).2 := by
    intro p
    cases hp : (p s).1 <;> simp [MU_ASSERT, hp, Step.st]
  have hP : ∀ (p : Pred σ),
      (MU_ASSERT_PRINT MU_PRINT file line message text p s).st = (p s).2 := by
    intro p
    cases hp : (p s).1 <;> simp [MU_ASSERT_PRINT, hp, Step.st]
  refine ⟨?_, ?_, ?_, hA test, hP test, hA (constPred value), hP (constPred value)⟩
  · cases hc : (c s).1 <;> simp [MU_RUN_TEST, hc, Step.st]
  · cases hc : (c s).1 <;> simp [MU_RUN_TEST, hc, Step.st]
  · cases hc : (c s).1 <;> simp [MU_RUN_TEST, hc, Step.st]

theorem channel_append (l : DebugLevel) (a b : List Event) :
    channel l (a ++ b) = channel l a ++ channel l b := by
  simp [channel, List.filterMap_append]

theorem channel_cons_call (l : DebugLevel) (n : String) (tr : List Event) :
    channel l (Event.call n :: tr) = channel l tr := rfl

theorem channel_info_lines (ls : List Line)
    (h : ∀ l ∈ ls, l.1 ≠ DebugLevel.DEBUG_LEVEL_INFO) :
    channel DebugLevel.DEBUG_LEVEL_INFO (linesToEvents ls) = [] := by
  induction ls with
  | nil => rfl
  | cons l ls ih =>
    have hl := h l (List.mem_cons_self _ _)
    have hrest := ih (fun x hx => h x (List.mem_cons_of_mem _ hx))
    simp only [channel, linesToEvents, List.map_cons, List.filterMap_cons, hl, if_false]
    exact hrest

theorem channel_passTrace {σ : Type} (cs : List (Named σ)) (s : State σ)
    (hq : ∀ c ∈ cs, NoInfoLines c.2) :
    channel DebugLevel.DEBUG_LEVEL_INFO (passTrace true cs s) = cs.map fun c => okLine c.1 := by
  induction cs generalizing s with
  | nil => rfl
  | cons c cs ih =>
    have hc := channel_info_lines (c.2 s).2.2 (hq c (List.mem_cons_self _ _) s)
    have hrest := ih (recorded c s) (fun x hx => hq x (List.mem_cons_of_mem _ hx))
    simp only [passTrace, List.cons_append, channel_cons_call, channel_append, hc, hrest,
      List.nil_append, List.map_cons]
    rfl

theorem channel_info_eq (ls : List Line) :
    channel DebugLevel.DEBUG_LEVEL_INFO (linesToEvents ls) = infoOf ls := by
  induction ls with
  | nil => rfl
  | cons l ls ih =>
    simp only [channel, linesToEvents, infoOf, List.map_cons, List.filterMap_cons] at ih ⊢
    by_cases hl : l.1 = DebugLevel.DEBUG_LEVEL_INFO
    · simp only [hl, if_true]
      rw [ih]
    · simp only [hl, if_false]
      exact ih

theorem channel_script {σ : Type} (cs : List (Named σ)) (s : State σ) :
    channel DebugLevel.DEBUG_LEVEL_INFO (passTrace true cs s) =
      (infoScript cs s).map Prod.snd := by
  induction cs generalizing s with
  | nil => rfl
  | cons c cs ih =>
    have hrest := ih (recorded c s)
    simp only [passTrace, infoScript, List.cons_append, channel_cons_call, channel_append,
      channel_info_eq, hrest, List.map_append, List.map_map, List.map_cons]
    have hid : (Prod.snd ∘ fun l : String => (false, l)) = id := rfl
    rw [hid, List.map_id, List.append_assoc]
    rfl

theorem runnerLines_script {σ : Type} (cs : List (Named σ)) (s : State σ) :
    runnerLines (infoScript cs s) = cs.map fun c => okLine c.1 := by
  induction cs generalizing s with
  | nil => rfl
  | cons c cs ih =>
    have hrest := ih (recorded c s)
    unfold runnerLines at hrest ⊢
    have hnone : ∀ ls : List String,
        (ls.map fun l => ((false, l) : Bool × String)).filter (fun p => p.1) = [] := by
      intro ls
      induction ls with
      | nil => rfl
      | cons l ls ihl => simp
    simp only [infoScript, List.filter_append, hnone, List.nil_append, List.filter_cons,
      if_true, List.map_cons, hrest]

theorem script_of_quiet {σ : Type} (cs : List (Named σ)) (s : State σ)
    (hq : ∀ c ∈ cs, NoInfoLines c.2) :
    (infoScript cs s).map Prod.snd = cs.map fun c => okLine c.1 := by
  rw [← channel_script, channel_passTrace cs s hq]

theorem firstFailure_split {σ : Type} (cases : List (Named σ)) (s : State σ) (k : Nat)
    (ck : Named σ) (d : String) (h : FirstFailure cases s k ck d) :
    cases = cases.take (k - 1) ++ ck :: cases.drop k ∧ (cases.take (k - 1)).length = k - 1 := by
  obtain ⟨hk, hck, _, _⟩ := h
  obtain ⟨hsplit, _⟩ := split_at cases (k - 1) ck hck
  have hk1 : k - 1 + 1 = k := by omega
  rw [hk1] at hsplit
  have hlt : k - 1 < cases.length := by
    by_contra hge
    rw [List.getElem?_eq_none (by omega)] at hck
    exact Option.noConfusion hck
  exact ⟨hsplit, by rw [List.length_take]; omega⟩

/-- C17, as stated, fails: a suite of one case that sets `run` to 100 and
returns `MU_NULL` has one `Test ok` line on the info channel, and `run` is 101
on return. -/
theorem C17_info_lines_counterexample :
    (bump (entry one stale)).1 = MU_NULL ∧
      channel DebugLevel.DEBUG_LEVEL_INFO (suite true one [("bump", bump)] stale).tr =
        ["Test ok: \"bump\"\n"] ∧
      (suite true one [("bump", bump)] stale).st.mu_tests_run.val = 101 ∧
      ((channel DebugLevel.DEBUG_LEVEL_INFO
        (suite true one [("bump", bump)] stale).tr).length : Int) ≠
        (suite true one [("bump", bump)] stale).st.mu_tests_run.val := by
  decide

/-- C17, amended: built with `MU_PRINT`, for every suite of N cases run through
`MU_RUN_TEST`, the info channel holds, for each case that passed before the
first failure, in declared order, the lines the case printed there itself and
then one line of the runner, `Test ok: "<name>"`; after them only the lines
the first failing case printed there itself.  So the lines of the runner are
exactly the `Test ok` lines of the cases that passed before the first failure,
one per case in declared order, N if all pass and k-1 if case k is the first to
fail, and they are all of the channel when no case prints there itself.  When
N, the `int` in `total`, is the number of cases and no case writes the
counters, their number is the final value of `run`. -/
theorem C17_info_lines_of_the_runner {σ : Type} (N : CInt) (cases : List (Named σ))
    (s : State σ) :
    (∀ (pre : List (Named σ)) (x : State σ),
        runnerLines (infoScript pre x) = pre.map fun c => okLine c.1) ∧
      (allPass cases (entry N s) = true →
        channel DebugLevel.DEBUG_LEVEL_INFO (suite true N cases s).tr =
          (infoScript cases (entry N s)).map Prod.snd) ∧
      (∀ (k : Nat) (ck : Named σ) (d : String), FirstFailure cases (entry N s) k ck d →
        channel DebugLevel.DEBUG_LEVEL_INFO (suite true N cases s).tr =
            (infoScript (cases.take (k - 1)) (entry N s)).map Prod.snd ++
              infoOf (ck.2 (afterAll (cases.take (k - 1)) (entry N s))).2.2 ∧
          (runnerLines (infoScript (cases.take (k - 1)) (entry N s))).length = k - 1) ∧
      ((∀ c ∈ cases, NoInfoLines c.2) →
        (allPass cases (entry N s) = true →
          channel DebugLevel.DEBUG_LEVEL_INFO (suite true N cases s).tr =
            cases.map fun c => okLine c.1) ∧
        ∀ (k : Nat) (ck : Named σ) (d : String), FirstFailure cases (entry N s) k ck d →
          channel DebugLevel.DEBUG_LEVEL_INFO (suite true N cases s).tr =
            (cases.take (k - 1)).map fun c => okLine c.1) ∧
      (N.val = cases.length → (∀ c ∈ cases, KeepsCounters c.2) →
        (allPass cases (entry N s) = true →
          ((runnerLines (infoScript cases (entry N s))).length : Int) =
            (suite true N cases s).st.mu_tests_run.val) ∧
        ∀ (k : Nat) (ck : Named σ) (d : String), FirstFailure cases (entry N s) k ck d →
          ((runnerLines (infoScript (cases.take (k - 1)) (entry N s))).length : Int) =
            (suite true N cases s).st.mu_tests_run.val) := by
  have hpass : allPass cases (entry N s) = true →
      channel DebugLevel.DEBUG_LEVEL_INFO (suite true N cases s).tr =
        (infoScript cases (entry N s)).map Prod.snd := by
    intro hall
    rw [suite_eq, runTests_allPass true cases (entry N s) hall]
    exact channel_script cases (entry N s)
  have hfail : ∀ (k : Nat) (ck : Named σ) (d : String), FirstFailure cases (entry N s) k ck d →
      channel DebugLevel.DEBUG_LEVEL_INFO (suite true N cases s).tr =
        (infoScript (cases.take (k - 1)) (entry N s)).map Prod.snd ++
          infoOf (ck.2 (afterAll (cases.take (k - 1)) (entry N s))).2.2 := by
    intro k ck d h
    obtain ⟨hsplit, _⟩ := firstFailure_split cases (entry N s) k ck d h
    obtain ⟨_, _, hp, hf⟩ := h
    have hrun := runTests_firstFail true (cases.take (k - 1)) (cases.drop k) ck d
      (entry N s) hp hf
    rw [← hsplit] at hrun
    rw [suite_eq, hrun]
    show channel _ (passTrace true _ _ ++ (Event.call ck.1 :: linesToEvents _)) = _
    rw [channel_append, channel_script, channel_cons_call, channel_info_eq]
  refine ⟨fun pre x => runnerLines_script pre x, hpass, ?_, ?_, ?_⟩
  · intro k ck d h
    refine ⟨hfail k ck d h, ?_⟩
    rw [runnerLines_script, List.length_map,
      (firstFailure_split cases (entry N s) k ck d h).2]
  · intro hq
    refine ⟨?_, ?_⟩
    · intro hall
      rw [hpass hall, script_of_quiet cases (entry N s) hq]
    · intro k ck d h
      have hqpre : ∀ c ∈ cases.take (k - 1), NoInfoLines c.2 :=
        fun c hc => hq c (List.mem_of_mem_take hc)
      have hqck := hq ck (List.getElem?_mem h.2.1)
        (afterAll (cases.take (k - 1)) (entry N s))
      have hnil : infoOf (ck.2 (afterAll (cases.take (k - 1)) (entry N s))).2.2 = [] := by
        rw [← channel_info_eq]
        exact channel_info_lines _ hqck
      rw [hfail k ck d h, script_of_quiet _ (entry N s) hqpre, hnil, List.append_nil]
  · intro hN hkeep
    refine ⟨?_, ?_⟩
    · intro hall
      obtain ⟨hout, hrun, _⟩ := suite_allPass true N cases s hN hkeep hall
      rw [runnerLines_script, List.length_map, hout, ← hN]
      exact hrun.symm
    · intro k ck d h
      obtain ⟨hsplit, hlen⟩ := firstFailure_split cases (entry N s) k ck d h
      obtain ⟨_, _, hp, hf⟩ := h
      have hN2 : N.val = (cases.take (k - 1) ++ ck :: cases.drop k).length := by
        rw [← hsplit]
        exact hN
      have hkeep2 : ∀ c ∈ cases.take (k - 1) ++ ck :: cases.drop k, KeepsCounters c.2 := by
        rw [← hsplit]
        exact hkeep
      obtain ⟨hout, hrun, _⟩ := suite_failAt true N (cases.take (k - 1)) (cases.drop k) ck d s
        hN2 hkeep2 hp hf
      rw [← hsplit] at hout
      rw [runnerLines_script, List.length_map, hout]
      exact hrun.symm

theorem talkative_keeps : ∀ c ∈ talkative, KeepsCounters c.2 := by
  intro c hc
  simp only [talkative, List.mem_cons, List.mem_singleton, List.not_mem_nil, or_false] at hc
  rcases hc with rfl | rfl | rfl <;> exact fun s => ⟨rfl, rfl⟩

/-- Witness of C17: the first case prints `hello` on the info channel itself
and passes, caseB (k = 2) fails: the channel holds `hello` and then the line of
the runner for the first case; the runner wrote one line, and `run` is 1. -/
theorem C17_info_lines_of_the_runner_witness :
    channel DebugLevel.DEBUG_LEVEL_INFO (suite true three talkative stale).tr =
        ["hello", "Test ok: \"chatty\"\n"] ∧
      runnerLines (infoScript (talkative.take (2 - 1)) (entry three stale)) =
        ["Test ok: \"chatty\"\n"] ∧
      (suite true three talkative stale).st.mu_tests_run.val = 1 :=
  have h := C17_info_lines_of_the_runner three talkative stale
  have hff : FirstFailure talkative (entry three stale) 2 ("caseB", caseB)
      "Assertion failed: \"y\" (1==2)\n            in suite.c:15\n" :=
    ⟨by decide, rfl, by decide, by decide⟩
  ⟨(h.2.2.1 2 _ _ hff).1, h.1 _ _, ((h.2.2.2.2 rfl talkative_keeps).2 2 _ _ hff).symm⟩

theorem snapshots_runTests {σ : Type} (b : Bool) (N : CInt) (cs : List (Named σ))
    (hkeep : ∀ c ∈ cs, KeepsCounters c.2) (j : Nat) (s : State σ)
    (hrun : s.mu_tests_run.val = j) (htot : s.mu_tests = N)
    (hroom : (j : Int) + cs.length ≤ N.val) :
    ∀ p ∈ snapshots (cs.map fun c => MU_RUN_TEST b c.1 c.2) j s,
      p.2.mu_tests_run.val = p.1 ∧ p.1 ≤ j + cs.length ∧ p.2.mu_tests = N := by
  induction cs generalizing j s with
  | nil =>
    intro p hp
    simp only [List.map_nil, snapshots, List.mem_singleton] at hp
    rw [hp]
    exact ⟨hrun, Nat.le_refl _, htot⟩
  | cons c cs ih =>
    have hc := hkeep c (List.mem_cons_self _ _) s
    have hNmax := N.hi
    simp only [List.length_cons, Nat.cast_add, Nat.cast_one] at hroom
    intro p hp
    simp only [List.map_cons, snapshots, List.mem_cons] at hp
    rcases hp with hp | hp
    · rw [hp]
      exact ⟨hrun, by omega, htot⟩
    · cases hres : (c.2 s).1 with
      | some d =>
        simp only [MU_RUN_TEST, hres, List.mem_singleton] at hp
        rw [hp]
        exact ⟨by show (c.2 s).2.1.mu_tests_run.val = _; rw [hc.1, hrun],
          by simp only [List.length_cons]; omega,
          by show (c.2 s).2.1.mu_tests = _; rw [hc.2, htot]⟩
      | none =>
        simp only [MU_RUN_TEST, hres] at hp
        have hrun1 : (recorded c s).mu_tests_run.val = ((j + 1 : Nat) : Int) := by
          show (c.2 s).2.1.mu_tests_run.succ.val = _
          rw [CInt.succ_val (by rw [hc.1, hrun]; omega), hc.1, hrun]
          simp
        have htot1 : (recorded c s).mu_tests = N := by
          show (c.2 s).2.1.mu_tests = _
          rw [hc.2, htot]
        have h := ih (fun x hx => hkeep x (List.mem_cons_of_mem _ hx)) (j + 1) (recorded c s)
          hrun1 htot1 (by simp only [Nat.cast_add, Nat.cast_one]; omega) p hp
        exact ⟨h.1, by simp only [List.length_cons]; omega, h.2.2⟩

theorem snapshots_last {σ : Type} (stmts : List (Stmt σ)) (j : Nat) (s : State σ) :
    (runStmts stmts s).st ∈ (snapshots stmts j s).map Prod.snd := by
  induction stmts generalizing j s with
  | nil => simp [runStmts, snapshots, Step.st]
  | cons c cs ih =>
    simp only [runStmts, snapshots, List.map_cons, List.mem_cons]
    right
    cases hc : c s with
    | ret v s1 t1 => simp [Step.andThen, Step.st]
    | next s1 t1 =>
      simp only [Step.andThen, after_st]
      exact ih (j + 1) s1

theorem fineSnapshots_inv {σ : Type} (N : CInt) (cs : List (Named σ))
    (hkeep : ∀ c ∈ cs, KeepsCounters c.2) (j : Nat) (s : State σ)
    (hrun : s.mu_tests_run.val = j) (htot : s.mu_tests = N)
    (hroom : (j : Int) + cs.length ≤ N.val) :
    ∀ p ∈ fineSnapshots cs j s,
      p.2.2.mu_tests_run.val + (if p.2.1 then 1 else 0) = p.1 ∧ p.1 ≤ j + cs.length ∧
        p.2.2.mu_tests = N ∧ (j : Int) ≤ p.2.2.mu_tests_run.val := by
  induction cs generalizing j s with
  | nil =>
    intro p hp
    simp only [fineSnapshots, List.mem_singleton] at hp
    rw [hp]
    exact ⟨by simp [hrun], Nat.le_refl _, htot, by simp [hrun]⟩
  | cons c cs ih =>
    have hc := hkeep c (List.mem_cons_self _ _) s
    have hNmax := N.hi
    simp only [List.length_cons, Nat.cast_add, Nat.cast_one] at hroom
    have hcrun : (c.2 s).2.1.mu_tests_run.val = j := by rw [hc.1, hrun]
    have hctot : (c.2 s).2.1.mu_tests = N := by rw [hc.2, htot]
    intro p hp
    simp only [fineSnapshots, List.mem_cons] at hp
    rcases hp with hp | hp
    · rw [hp]
      exact ⟨by simp [hrun], by omega, htot, by simp [hrun]⟩
    · cases hres : (c.2 s).1 with
      | some d =>
        simp only [hres, List.mem_singleton] at hp
        rw [hp]
        exact ⟨by simp [hcrun], by simp only [List.length_cons]; omega, hctot,
          by simp [hcrun]⟩
      | none =>
        simp only [hres, List.mem_cons] at hp
        rcases hp with hp | hp
        · rw [hp]
          exact ⟨by simp [hcrun], by simp only [List.length_cons]; omega, hctot,
            by simp [hcrun]⟩
        · have hrun1 : (recorded c s).mu_tests_run.val = ((j + 1 : Nat) : Int) := by
            show (c.2 s).2.1.mu_tests_run.succ.val = _
            rw [CInt.succ_val (by rw [hcrun]; omega), hcrun]
            simp
          have h := ih (fun x hx => hkeep x (List.mem_cons_of_mem _ hx)) (j + 1)
            (recorded c s) hrun1 hctot (by simp only [Nat.cast_add, Nat.cast_one]; omega) p hp
          have h4 := h.2.2.2
          simp only [Nat.cast_add, Nat.cast_one] at h4
          exact ⟨h.1, by simp only [List.length_cons]; omega, h.2.2.1, by omega⟩

theorem snapshots_fine {σ : Type} (b : Bool) (cs : List (Named σ)) (j : Nat) (s : State σ) :
    ∀ p ∈ snapshots (cs.map fun c => MU_RUN_TEST b c.1 c.2) j s,
      (p.1, false, p.2) ∈ fineSnapshots cs j s := by
  induction cs generalizing j s with
  | nil =>
    intro p hp
    simp only [List.map_nil, snapshots, List.mem_singleton] at hp
    rw [hp]
    exact List.mem_singleton.mpr rfl
  | cons c cs ih =>
    intro p hp
    simp only [List.map_cons, snapshots, List.mem_cons] at hp
    rcases hp with hp | hp
    · rw [hp]
      exact List.mem_cons_self _ _
    · cases hres : (c.2 s).1 with
      | some d =>
        simp only [MU_RUN_TEST, hres, List.mem_singleton] at hp
        rw [hp]
        simp only [fineSnapshots, hres]
        exact List.mem_cons_of_mem _ (List.mem_singleton.mpr rfl)
      | none =>
        simp only [MU_RUN_TEST, hres] at hp
        have h := ih (j + 1) (recorded c s) p hp
        simp only [fineSnapshots, hres]
        exact List.mem_cons_of_mem _ (List.mem_cons_of_mem _ h)

/-- C18, as stated, fails in two kinds of states reachable during the
execution of the scenario.  Entered with `run = 7` and `total = -5`, the suite
is, between its two assignments, in a state with `run = 0` above `total = -5`,
and `total` is not yet 3.  And when `test()` has returned `MU_NULL` for caseA
and `mu_tests_run++` is still to come, one case has been called and has
returned `MU_NULL` while `run` is 0. -/
theorem C18_counter_invariant_counterexample :
    (snapshots (suiteBody true three scenario) 0 negStale).map
        (fun p => (p.2.mu_tests_run.val, p.2.mu_tests.val)) =
        [(7, -5), (0, -5), (0, 3), (1, 3), (1, 3)] ∧
      (∃ p ∈ snapshots (suiteBody true three scenario) 0 negStale,
        ¬ (p.2.mu_tests_run.val ≤ p.2.mu_tests.val) ∧ p.2.mu_tests.val ≠ 3) ∧
      (caseA (entry three stale)).1 = MU_NULL ∧
      (fineSnapshots scenario 0 (entry three stale)).map
        (fun p => (p.1, p.2.1, p.2.2.mu_tests_run.val, p.2.2.mu_tests.val)) =
        [(0, false, 0, 3), (1, true, 0, 3), (1, false, 1, 3), (1, false, 1, 3)] ∧
      ∃ p ∈ fineSnapshots scenario 0 (entry three stale),
        p.2.2.mu_tests_run.val ≠ (p.1 : Int) := by
  decide

/-- C18, amended: in a suite written to the convention (`run` reset, `total`
set to the `int` N, N cases that do not write the counters), every state from
the completion of the two assignments to the return, taken before each
`test()`, when `test()` has returned and after each `mu_tests_run++`,
satisfies `0 <= run <= total` and `total = N`; `run` is the number of cases
that were called and returned `MU_NULL` so far, except between the return of
`MU_NULL` and the `mu_tests_run++` that records it, where it is one less.  At
the boundaries of the `MU_RUN_TEST` statements and on return `run` is that
number; and `run = total` on return only if every case passed and the suite
returned `MU_NULL`. -/
theorem C18_counter_invariant {σ : Type} (MU_PRINT : Bool) (N : CInt)
    (cases : List (Named σ)) (s : State σ)
    (hN : N.val = cases.length)
    (hkeep : ∀ c ∈ cases, KeepsCounters c.2) :
    (∀ p ∈ fineSnapshots cases 0 (entry N s),
        0 ≤ p.2.2.mu_tests_run.val ∧ p.2.2.mu_tests_run.val ≤ p.2.2.mu_tests.val ∧
          p.2.2.mu_tests = N ∧
          p.2.2.mu_tests_run.val + (if p.2.1 then 1 else 0) = p.1) ∧
      (∀ p ∈ snapshots (cases.map fun c => MU_RUN_TEST MU_PRINT c.1 c.2) 0 (entry N s),
        (p.1, false, p.2) ∈ fineSnapshots cases 0 (entry N s) ∧
          0 ≤ p.2.mu_tests_run.val ∧ p.2.mu_tests_run.val ≤ p.2.mu_tests.val ∧
          p.2.mu_tests = N ∧ p.2.mu_tests_run.val = p.1) ∧
      (suite MU_PRINT N cases s).st ∈
        (snapshots (cases.map fun c => MU_RUN_TEST MU_PRINT c.1 c.2) 0 (entry N s)).map
          Prod.snd ∧
      ((suite MU_PRINT N cases s).st.mu_tests_run = (suite MU_PRINT N cases s).st.mu_tests →
        allPass cases (entry N s) = true ∧ (suite MU_PRINT N cases s).result = MU_NULL) := by
  refine ⟨?_, ?_, ?_, ?_⟩
  · intro p hp
    have h := fineSnapshots_inv N cases hkeep 0 (entry N s) (entry_run N s)
      (entry_total N s) (by rw [hN]; simp) p hp
    have hle := h.2.1
    have hsum := h.1
    have hnn := h.2.2.2
    refine ⟨by simpa using hnn, ?_, h.2.2.1, hsum⟩
    rw [h.2.2.1, hN]
    split at hsum <;> omega
  · intro p hp
    have h := snapshots_runTests MU_PRINT N cases hkeep 0 (entry N s) (entry_run N s)
      (entry_total N s) (by rw [hN]; simp) p hp
    refine ⟨snapshots_fine MU_PRINT cases 0 (entry N s) p hp, by rw [h.1]; omega, ?_,
      h.2.2, h.1⟩
    rw [h.1, h.2.2, hN]
    have := h.2.1
    omega
  · rw [(suite_result MU_PRINT N cases s).2]
    exact snapshots_last _ 0 (entry N s)
  · intro heq
    cases hall : allPass cases (entry N s) with
    | true =>
      exact ⟨rfl, by rw [(suite_allPass MU_PRINT N cases s hN hkeep hall).1]⟩
    | false =>
      obtain ⟨pre, ck, post, d, he, hp, hf⟩ := first_failing_case cases (entry N s) hall
      subst he
      obtain ⟨hout, hrun, htot⟩ := suite_failAt MU_PRINT N pre post ck d s hN hkeep hp hf
      rw [hout] at heq
      have hv : (ck.2 (afterAll pre (entry N s))).2.1.mu_tests_run.val =
          (ck.2 (afterAll pre (entry N s))).2.1.mu_tests.val := congrArg CInt.val heq
      rw [hrun, htot, hN] at hv
      simp only [List.length_append, List.length_cons, Nat.cast_add, Nat.cast_one] at hv
      omega

/-- Witness of C18: the states of the scenario from the first `MU_RUN_TEST` on
have `(run, total)` equal to (0, 3), (0, 3) when caseA has returned, (1, 3),
and (1, 3) when caseB has returned its diagnostic. -/
theorem C18_counter_invariant_witness :
    (fineSnapshots scenario 0 (entry three stale)).map
        (fun p => (p.1, p.2.1, p.2.2.mu_tests_run.val, p.2.2.mu_tests.val)) =
        [(0, false, 0, 3), (1, true, 0, 3), (1, false, 1, 3), (1, false, 1, 3)] ∧
      ∀ p ∈ fineSnapshots scenario 0 (entry three stale),
        0 ≤ p.2.2.mu_tests_run.val ∧ p.2.2.mu_tests_run.val ≤ p.2.2.mu_tests.val ∧
          p.2.2.mu_tests = three ∧
          p.2.2.mu_tests_run.val + (if p.2.1 then 1 else 0) = p.1 :=
  ⟨by decide, (C18_counter_invariant true three scenario stale rfl scenario_keeps).1⟩

end MinUnit
